import Mathlib

/-!
Verification development for the apexai-copilot derivation pipeline.

The Python/SQL source is shallowly embedded in Lean:

* numeric values (`lap_time_s`, `sector_time_s`, `throttle_pct`, ...) are
  modelled as rationals (`ℚ`); the run-time floating representation is the
  only simplification, and presentation-only rounding (`round(x, 3)` before
  JSON serialisation) is omitted;
* in the whole repository `driver_id` is the string `D_<car_no>` computed
  from the car number (src/pipelines/laps.py, src/pipelines/sectors.py), a
  bijection, so both `driver_id` and `car_no` are represented by the single
  natural number `driver`; grouping by `(driver_id, car_no)` is therefore
  grouping by `driver`;
* class labels (`'GT'`, ...) are represented by natural-number codes;
* SQL `NULL` is `Option.none`; SQL aggregates skip `NULL` inputs;
* a SQL table is a `List` of row structures; `GROUP BY` is the `groupBy`
  combinator below (one output row per distinct key, in order of first
  appearance); an inner join against a table whose join key is unique
  (every joined table here is either a `GROUP BY` result, unique per key by
  construction, or the `drivers` table, whose key uniqueness is an explicit
  hypothesis of the theorems that need it) is modelled by `List.find?`.
-/

namespace ApexCopilot

/-- Minimum of a list of rationals, `none` on the empty list.  Models the SQL
`MIN` aggregate applied to the non-`NULL` values of a group. -/
def listMin : List ℚ → Option ℚ
  | [] => none
  | x :: xs =>
    match listMin xs with
    | none => some x
    | some m => some (min x m)

theorem listMin_eq_none_iff (l : List ℚ) : listMin l = none ↔ l = [] := by
  cases l with
  | nil => simp [listMin]
  | cons x xs =>
    simp only [listMin]
    cases listMin xs <;> simp

theorem listMin_mem (l : List ℚ) (m : ℚ) (h : listMin l = some m) : m ∈ l := by
  induction l generalizing m with
  | nil => simp [listMin] at h
  | cons x xs ih =>
    simp only [listMin] at h
    cases hxs : listMin xs with
    | none =>
      rw [hxs] at h
      simp at h
      simp [h]
    | some m' =>
      rw [hxs] at h
      simp at h
      subst h
      rcases min_choice x m' with hc | hc
      · rw [hc]
        exact List.mem_cons_self x xs
      · rw [hc]
        exact List.mem_cons_of_mem x (ih m' hxs)

theorem listMin_le (l : List ℚ) (m : ℚ) (h : listMin l = some m) :
    ∀ x ∈ l, m ≤ x := by
  induction l generalizing m with
  | nil => simp
  | cons y ys ih =>
    intro x hx
    simp only [listMin] at h
    cases hys : listMin ys with
    | none =>
      rw [hys] at h
      simp at h
      rw [listMin_eq_none_iff] at hys
      subst hys
      simp at hx
      simp [hx, h]
    | some m' =>
      rw [hys] at h
      simp at h
      subst h
      rcases List.mem_cons.mp hx with hx | hx
      · subst hx
        exact min_le_left _ _
      · exact le_trans (min_le_right _ _) (ih m' hys x hx)

theorem listMin_eq_some_of_ne_nil (l : List ℚ) (h : l ≠ []) :
    ∃ m, listMin l = some m := by
  cases hl : listMin l with
  | none => exact absurd ((listMin_eq_none_iff l).mp hl) h
  | some m => exact ⟨m, rfl⟩

/-- The minimum of a list of rationals only depends on which values occur in
the list. -/
theorem listMin_congr (l₁ l₂ : List ℚ) (h : ∀ x, x ∈ l₁ ↔ x ∈ l₂) :
    listMin l₁ = listMin l₂ := by
  cases h₁ : listMin l₁ with
  | none =>
    rw [listMin_eq_none_iff] at h₁
    subst h₁
    cases h₂ : listMin l₂ with
    | none => rfl
    | some m => exact absurd ((h m).mpr (listMin_mem _ _ h₂)) (List.not_mem_nil m)
  | some m =>
    cases h₂ : listMin l₂ with
    | none =>
      rw [listMin_eq_none_iff] at h₂
      subst h₂
      exact absurd ((h m).mp (listMin_mem _ _ h₁)) (List.not_mem_nil m)
    | some m' =>
      have hm : m ∈ l₂ := (h m).mp (listMin_mem _ _ h₁)
      have hm' : m' ∈ l₁ := (h m').mpr (listMin_mem _ _ h₂)
      exact congrArg some (le_antisymm
        (listMin_le l₁ m h₁ m' hm') (listMin_le l₂ m' h₂ m hm))

/-- Subtracting a constant commutes with taking the list minimum. -/
theorem listMin_map_sub (l : List ℚ) (c : ℚ) :
    listMin (l.map (fun x => x - c)) = (listMin l).map (fun x => x - c) := by
  induction l with
  | nil => rfl
  | cons x xs ih =>
    rw [List.map_cons]
    simp only [listMin, ih]
    cases listMin xs with
    | none => rfl
    | some m =>
      show some ((x - c) ⊓ (m - c)) = some (x ⊓ m - c)
      exact congrArg some (min_sub_sub_right x m c)

/-- Mean of a list of rationals (SQL `AVG` over the group's values). -/
def listMean (l : List ℚ) : ℚ := l.sum / l.length

/-- Sample variance with Bessel's correction (denominator `n - 1`), the
square of DuckDB's `STDDEV` = `STDDEV_SAMP`; `NULL` when fewer than two
values.  The standard deviation itself is the (irrational) square root of
this value, so the estimator is modelled at the variance level. -/
def varSamp (l : List ℚ) : Option ℚ :=
  if 2 ≤ l.length then
    some (((l.map (fun x => (x - listMean l) ^ 2)).sum) / (l.length - 1))
  else none

/-- Population variance (denominator `n`), the square of SQL `STDDEV_POP`.
This is the estimator the spec's words describe for `consistency_s`. -/
def varPop (l : List ℚ) : Option ℚ :=
  if 1 ≤ l.length then
    some (((l.map (fun x => (x - listMean l) ^ 2)).sum) / l.length)
  else none

theorem listMean_nonneg (l : List ℚ) (h : ∀ x ∈ l, 0 ≤ x) : 0 ≤ listMean l := by
  unfold listMean
  have hs : 0 ≤ l.sum := List.sum_nonneg h
  positivity

section GroupBy

variable {α β κ : Type} [DecidableEq κ]

/-- Distinct grouping keys of a list, in order of first appearance. -/
def gkeys (key : α → κ) (l : List α) : List κ := (l.map key).dedup

/-- The rows of `l` belonging to group `k`. -/
def grows (key : α → κ) (l : List α) (k : κ) : List α :=
  l.filter (fun a => decide (key a = k))

/-- SQL `GROUP BY`: one aggregated row per distinct key. -/
def groupBy (key : α → κ) (agg : κ → List α → β) (l : List α) : List β :=
  (gkeys key l).map (fun k => agg k (grows key l k))

theorem mem_gkeys (key : α → κ) (l : List α) (k : κ) :
    k ∈ gkeys key l ↔ ∃ a ∈ l, key a = k := by
  simp [gkeys, List.mem_dedup, List.mem_map]

theorem gkeys_nodup (key : α → κ) (l : List α) : (gkeys key l).Nodup :=
  List.nodup_dedup _

theorem mem_grows (key : α → κ) (l : List α) (k : κ) (a : α) :
    a ∈ grows key l k ↔ a ∈ l ∧ key a = k := by
  simp [grows, List.mem_filter]

theorem grows_ne_nil (key : α → κ) (l : List α) (k : κ)
    (h : k ∈ gkeys key l) : grows key l k ≠ [] := by
  rw [mem_gkeys] at h
  obtain ⟨a, ha, hk⟩ := h
  intro hnil
  have : a ∈ grows key l k := (mem_grows key l k a).mpr ⟨ha, hk⟩
  rw [hnil] at this
  exact List.not_mem_nil a this

theorem mem_groupBy (key : α → κ) (agg : κ → List α → β) (l : List α)
    (b : β) :
    b ∈ groupBy key agg l ↔
      ∃ k, k ∈ gkeys key l ∧ b = agg k (grows key l k) := by
  simp only [groupBy, List.mem_map]
  constructor
  · rintro ⟨k, hk, rfl⟩
    exact ⟨k, hk, rfl⟩
  · rintro ⟨k, hk, rfl⟩
    exact ⟨k, hk, rfl⟩

theorem find?_key_map (getKey : β → κ) (f : κ → β)
    (hf : ∀ k, getKey (f k) = k) :
    ∀ (ks : List κ), ks.Nodup → ∀ k ∈ ks,
      (ks.map f).find? (fun b => decide (getKey b = k)) = some (f k)
  | [], _, k, hk => by simp at hk
  | k' :: ks, hnd, k, hk => by
    by_cases hEq : k' = k
    · subst hEq
      simp [hf]
    · have hk' : k ∈ ks := by
        rcases List.mem_cons.mp hk with h | h
        · exact absurd h.symm hEq
        · exact h
      have hd : (decide (getKey (f k') = k)) = false := by
        simp [hf, hEq]
      simp only [List.map_cons, List.find?_cons, hd, cond_false]
      exact find?_key_map getKey f hf ks (List.nodup_cons.mp hnd).2 k hk'

/-- Looking a group key up in a `GROUP BY` result finds exactly that key's
aggregated row (keys are unique per group). -/
theorem find?_groupBy (key : α → κ) (agg : κ → List α → β) (l : List α)
    (getKey : β → κ) (hagg : ∀ k rows, getKey (agg k rows) = k) (k : κ)
    (hk : k ∈ gkeys key l) :
    (groupBy key agg l).find? (fun b => decide (getKey b = k)) =
      some (agg k (grows key l k)) := by
  unfold groupBy
  exact find?_key_map getKey (fun k' => agg k' (grows key l k'))
    (fun k' => hagg k' _) (gkeys key l) (gkeys_nodup key l) k hk

end GroupBy

/-! ## Data model

Embeds the tables built by src/pipelines/laps.py and
src/pipelines/sectors.py that the analytics stages read. -/

/-- The six micro-sector ids produced by the `sector_map` of
src/pipelines/sectors.py. -/
inductive MicroSector
  | S1a | S1b | S2a | S2b | S3a | S3b
  deriving DecidableEq, Repr

/-- The three main sectors; `main_sector` is the first two characters of
`sector_id` (src/pipelines/sectors.py line 89). -/
inductive MainSector
  | S1 | S2 | S3
  deriving DecidableEq, Repr

/-- First two characters of the micro-sector id. -/
def mainOf : MicroSector → MainSector
  | .S1a | .S1b => .S1
  | .S2a | .S2b => .S2
  | .S3a | .S3b => .S3

/-- One row of the `sectors` table: a micro-sector time of one lap.
`driver` stands for both `driver_id` (= `D_<car_no>`) and `car_no`. -/
structure SectorRow where
  driver : ℕ
  lap : ℕ
  sector : MicroSector
  time : ℚ
  deriving DecidableEq, Repr

/-- One row of the `drivers` table (src/pipelines/laps.py); `klass` is a
numeric code for the `CLASS` column. -/
structure DriverRow where
  driver : ℕ
  klass : ℕ
  deriving DecidableEq, Repr

/-- One row of the `laps` table; `time` is `lap_time_s`. -/
structure LapRow where
  driver : ℕ
  lap : ℕ
  time : ℚ
  deriving DecidableEq, Repr

/-- Lap validity: `df_laps['lap_time_s'].between(60, 240)`
(src/pipelines/laps.py line 97); pandas `between` is inclusive on both
ends. -/
def isValidLap (t : ℚ) : Bool := decide (60 ≤ t ∧ t ≤ 240)

/-! ## Hesitation Detector (src/pipelines/telemetry_features.py)

The SQL computes, per `(race, session, driver, car, lap, sector)` partition
ordered by `lap_progress`,
`mid_throttle = throttle_pct BETWEEN 40 AND 70` and
`throttle_hesitation_flag = mid_throttle AND NOT lag(mid_throttle, 1, FALSE)`.
A partition is modelled as the list of its `throttle_pct` values in
`lap_progress` order. -/

/-- The mid-throttle band: `throttle_pct BETWEEN 40 AND 70` (inclusive). -/
def midThrottle (t : ℚ) : Bool := decide (40 ≤ t ∧ t ≤ 70)

/-- Row-level hesitation flags, carrying the previous sample's
`mid_throttle` value; the SQL `lag(mid_throttle, 1, FALSE)` seeds the first
sample's lagged value with `FALSE`. -/
def hesFlagsAux (prev : Bool) : List ℚ → List Bool
  | [] => []
  | t :: ts => (midThrottle t && !prev) :: hesFlagsAux (midThrottle t) ts

/-- Hesitation flags of one ordered partition. -/
def hesFlags (ts : List ℚ) : List Bool := hesFlagsAux false ts

/-- `SUM(throttle_hesitation_flag)` over the partition. -/
def hesitationCount (ts : List ℚ) : ℕ := (hesFlags ts).count true

theorem hesFlagsAux_length (prev : Bool) (ts : List ℚ) :
    (hesFlagsAux prev ts).length = ts.length := by
  induction ts generalizing prev with
  | nil => rfl
  | cons t ts ih => simp [hesFlagsAux, ih]

/-- Away from the first sample, the flag compares the sample with its
predecessor, whatever the seed was. -/
theorem hesFlagsAux_getD (prev : Bool) (ts : List ℚ) (i : ℕ)
    (h : i + 1 < ts.length) :
    (hesFlagsAux prev ts).getD (i + 1) false =
      (midThrottle (ts.getD (i + 1) 0) && !midThrottle (ts.getD i 0)) := by
  induction ts generalizing prev i with
  | nil => simp at h
  | cons t ts ih =>
    cases i with
    | zero =>
      cases ts with
      | nil => simp at h
      | cons t' ts' => simp [hesFlagsAux]
    | succ j =>
      have hj : j + 1 < ts.length := by
        simpa [Nat.succ_lt_succ_iff] using h
      simpa [hesFlagsAux] using ih (midThrottle t) j hj

/-! ## Time Normalizer (`parse_time`, src/pipelines/sectors.py lines 13-44)

`parse_time` receives a cell of unknown representation: missing (`None` /
`NaN`), a `datetime.time` object, a string, or a number.  Python's `int()`
and `float()` on plain decimal literals are modelled by `pyInt?` and
`pyFloat?` (exponent, infinity and NaN literals, underscores and non-ASCII
digits are not modelled; no claim exercises them). -/

/-- Whitespace trim on both ends of a character list (Python `str.strip`). -/
def stripEnds (l : List Char) : List Char :=
  ((l.dropWhile Char.isWhitespace).reverse.dropWhile Char.isWhitespace).reverse

/-- Python `str.split(sep)` for a one-character separator: splits at every
occurrence, keeping empty pieces. -/
def splitOnChar (c : Char) : List Char → List (List Char)
  | [] => [[]]
  | x :: xs =>
    let r := splitOnChar c xs
    if x = c then [] :: r
    else
      match r with
      | [] => [[x]]
      | h :: t => (x :: h) :: t

/-- Numeric value of a digit list (most significant first). -/
def digitsToNat (l : List Char) : ℕ :=
  l.foldl (fun n c => 10 * n + (c.toNat - 48)) 0

/-- The list is nonempty and all characters are decimal digits. -/
def allDigits (l : List Char) : Bool := !l.isEmpty && l.all Char.isDigit

/-- Python `int(s)` on a decimal literal: optional sign, digits; anything
else raises, modelled as `none`. -/
def pyInt? (l : List Char) : Option ℤ :=
  match stripEnds l with
  | [] => none
  | c :: rest =>
    if c = '-' then
      if allDigits rest then some (-(digitsToNat rest : ℤ)) else none
    else if c = '+' then
      if allDigits rest then some (digitsToNat rest) else none
    else if allDigits (c :: rest) then some (digitsToNat (c :: rest))
    else none

/-- Python `float(s)` on a plain decimal literal: optional sign, integer
digits, optional point and fraction digits, at least one digit overall. -/
def pyFloat? (l : List Char) : Option ℚ :=
  let t := stripEnds l
  let signAndBody : ℚ × List Char :=
    match t with
    | c :: rest =>
      if c = '-' then (-1, rest) else if c = '+' then (1, rest) else (1, t)
    | [] => (1, [])
  let body := signAndBody.2
  let intPart := body.takeWhile (fun c => decide (c ≠ '.'))
  match body.dropWhile (fun c => decide (c ≠ '.')) with
  | [] =>
    if allDigits intPart then some (signAndBody.1 * digitsToNat intPart)
    else none
  | _ :: frac =>
    if (intPart.all Char.isDigit && frac.all Char.isDigit)
        && (!intPart.isEmpty || !frac.isEmpty) then
      some (signAndBody.1 *
        ((digitsToNat intPart : ℚ) + mkRat (digitsToNat frac) (10 ^ frac.length)))
    else none

/-- A raw cell value as `parse_time` receives it: missing (`None`), float
`NaN`, a `datetime.time` object, a string, or a number.  (`pd.isna` is true
exactly on the first two.) -/
inductive RawVal
  | noneVal
  | nanVal
  | timeOfDay (hour minute second micro : ℕ)
  | strVal (s : String)
  | numVal (x : ℚ)

/-- Model of `parse_time` (src/pipelines/sectors.py lines 13-44):

* `pd.isna(val)` → `None`;
* a `datetime.time` → `hour*3600 + minute*60 + second + microsecond/1e6`;
* a string → strip; if it contains a colon, split on colons,
  `minutes = int(parts[-2]) if len(parts) == 3 else int(parts[0])`,
  `seconds = float(parts[-1])`, result `minutes*60 + seconds`, `None` if
  either conversion raises; otherwise `float(val)` or `None`;
* a number → `float(val)`. -/
def parse_time : RawVal → Option ℚ
  | .noneVal => none
  | .nanVal => none
  | .timeOfDay h m s us =>
    some ((h : ℚ) * 3600 + m * 60 + s + mkRat us 1000000)
  | .strVal s =>
    let v := stripEnds s.data
    if v.any (fun c => decide (c = ':')) then
      let parts := splitOnChar ':' v
      let minutes :=
        if parts.length = 3 then pyInt? (parts.getD 1 [])
        else pyInt? (parts.getD 0 [])
      match minutes, pyFloat? (parts.getLastD []) with
      | some m, some sec => some ((m : ℚ) * 60 + sec)
      | _, _ => none
    else pyFloat? v
  | .numVal x => some x

/-! ## Ideal-Lap Engine (src/analytics/ideal_lap.py) -/

/-- One row of `lap_sector_sums`: per (driver, lap, main sector), the sum of
the micro-sector times above the 1-second noise floor
(`WHERE sector_time_s > 1 GROUP BY driver_id, car_no, lap_no, main_sector`). -/
structure SumRow where
  driver : ℕ
  lap : ℕ
  main : MainSector
  total : ℚ
  deriving DecidableEq, Repr

def lapSectorSums (sectors : List SectorRow) : List SumRow :=
  groupBy (fun s => (s.driver, s.lap, mainOf s.sector))
    (fun k rows => ⟨k.1, k.2.1, k.2.2, (rows.map (fun r => r.time)).sum⟩)
    (sectors.filter (fun s => decide (1 < s.time)))

/-- One row of `ideal_lap_segments_class`: per (class, micro-sector), the
minimum time across all drivers of the class.  The `ARG_MIN` provenance
column is omitted (no claim references it). -/
structure ILSRow where
  klass : ℕ
  sector : MicroSector
  best : ℚ
  deriving DecidableEq, Repr

def idealLapSegmentsClass (sectors : List SectorRow) (drivers : List DriverRow) :
    List ILSRow :=
  groupBy (fun p => (p.1, p.2.sector))
    (fun k rows => ⟨k.1, k.2, (listMin (rows.map (fun p => p.2.time))).getD 0⟩)
    ((sectors.filter (fun s => decide (1 < s.time))).filterMap
      (fun s => (drivers.find? (fun d => decide (d.driver = s.driver))).map
        (fun d => (d.klass, s))))

/-- The SQL `CASE WHEN l.main_sector = 'Sn' THEN l.sector_time_sum END`
inside the `MIN` aggregates of `ideal_lap_driver`. -/
def caseMain (m : MainSector) (r : SumRow) : Option ℚ :=
  if r.main = m then some r.total else none

/-- One row of `ideal_lap_driver`: each `bSn` is `MIN` over the driver's
`lap_sector_sums` rows of the `CASE` expression (SQL `MIN` skips `NULL`s,
so it is the minimum over the rows of main sector `Sn`, `NULL` when there
are none). -/
structure ILDRow where
  driver : ℕ
  klass : Option ℕ
  bS1 : Option ℚ
  bS2 : Option ℚ
  bS3 : Option ℚ
  deriving DecidableEq, Repr

def idealLapDriver (sectors : List SectorRow) (drivers : List DriverRow) :
    List ILDRow :=
  groupBy (fun r => r.driver)
    (fun d rows =>
      ⟨d, (drivers.find? (fun dr => decide (dr.driver = d))).map (fun dr => dr.klass),
        listMin (rows.filterMap (caseMain .S1)),
        listMin (rows.filterMap (caseMain .S2)),
        listMin (rows.filterMap (caseMain .S3))⟩)
    ((lapSectorSums sectors).filter
      (fun r => (drivers.find? (fun d => decide (d.driver = r.driver))).isSome))

/-- `NULL`-propagating sum `best_S1 + best_S2 + best_S3`. -/
def optAdd3 : Option ℚ → Option ℚ → Option ℚ → Option ℚ
  | some a, some b, some c => some (a + b + c)
  | _, _, _ => none

/-- One row of `ideal_lap`: one per valid lap of a driver present in
`ideal_lap_driver`. -/
structure IdealRow where
  driver : ℕ
  lap : ℕ
  lapTime : ℚ
  klass : Option ℕ
  bS1 : Option ℚ
  bS2 : Option ℚ
  bS3 : Option ℚ
  ideal : Option ℚ
  delta : Option ℚ
  deriving DecidableEq, Repr

def idealLap (laps : List LapRow) (sectors : List SectorRow)
    (drivers : List DriverRow) : List IdealRow :=
  (laps.filter (fun l => isValidLap l.time)).filterMap (fun l =>
    ((idealLapDriver sectors drivers).find?
        (fun i => decide (i.driver = l.driver))).map (fun i =>
      ⟨l.driver, l.lap, l.time, i.klass, i.bS1, i.bS2, i.bS3,
        optAdd3 i.bS1 i.bS2 i.bS3,
        (optAdd3 i.bS1 i.bS2 i.bS3).map (fun v => l.time - v)⟩))

/-! ## Delta Engine (src/analytics/deltas.py) -/

/-- One row of `sector_deltas`: a micro-sector time joined to the class
ideal and the driver's personal bests (`WHERE s.sector_time_s > 1`; no lap
validity condition appears in this query). -/
structure SDRow where
  driver : ℕ
  lap : ℕ
  sector : MicroSector
  main : MainSector
  time : ℚ
  idealClass : ℚ
  deltaClass : ℚ
  idealDriver : Option ℚ
  deltaDriver : Option ℚ
  bS1 : Option ℚ
  bS2 : Option ℚ
  bS3 : Option ℚ
  klass : ℕ
  deriving DecidableEq, Repr

/-- The `CASE WHEN s.main_sector = 'Sn' THEN ild.best_Sn END` selector. -/
def caseBest (m : MainSector) (i : ILDRow) : Option ℚ :=
  match m with
  | .S1 => i.bS1
  | .S2 => i.bS2
  | .S3 => i.bS3

/-- Builds the `sector_deltas` row of one qualifying `sectors` row: the
three lookups are the query's joins to `drivers`,
`ideal_lap_segments_class` (on micro-sector and class) and
`ideal_lap_driver` (on driver); a failed lookup drops the row, as an inner
join does. -/
def sdBuild (sectors : List SectorRow) (drivers : List DriverRow)
    (s : SectorRow) : Option SDRow :=
  (drivers.find? (fun d => decide (d.driver = s.driver))).bind (fun d =>
    ((idealLapSegmentsClass sectors drivers).find?
      (fun r => decide (r.sector = s.sector ∧ r.klass = d.klass))).bind (fun c =>
    ((idealLapDriver sectors drivers).find?
      (fun r => decide (r.driver = s.driver))).bind (fun b =>
    some ⟨s.driver, s.lap, s.sector, mainOf s.sector, s.time,
      c.best, s.time - c.best,
      caseBest (mainOf s.sector) b,
      (caseBest (mainOf s.sector) b).map (fun v => s.time - v),
      b.bS1, b.bS2, b.bS3, d.klass⟩)))

def sectorDeltas (sectors : List SectorRow) (drivers : List DriverRow) :
    List SDRow :=
  (sectors.filter (fun s => decide (1 < s.time))).filterMap
    (sdBuild sectors drivers)

/-- The `CASE WHEN main_sector = 'Sn' THEN best_Sn END` selector on
`sector_deltas` rows. -/
def caseBestSD (m : MainSector) (r : SDRow) : Option ℚ :=
  match m with
  | .S1 => r.bS1
  | .S2 => r.bS2
  | .S3 => r.bS3

/-- One row of `main_sector_deltas`
(`GROUP BY driver_id, car_no, lap_no, main_sector` over `sector_deltas`). -/
structure MSDRow where
  driver : ℕ
  lap : ℕ
  main : MainSector
  actual : ℚ
  ideal : Option ℚ
  delta : Option ℚ
  deriving DecidableEq, Repr

def mainSectorDeltas (sd : List SDRow) : List MSDRow :=
  groupBy (fun r => (r.driver, r.lap, r.main))
    (fun k rows =>
      ⟨k.1, k.2.1, k.2.2, (rows.map (fun r => r.time)).sum,
        listMin (rows.filterMap (caseBestSD k.2.2)),
        (listMin (rows.filterMap (caseBestSD k.2.2))).map
          (fun v => (rows.map (fun r => r.time)).sum - v)⟩)
    sd

/-- One row of `lap_deltas` (valid laps joined to `ideal_lap` on driver and
lap number). -/
structure LDRow where
  driver : ℕ
  lap : ℕ
  lapTime : ℚ
  ideal : Option ℚ
  delta : Option ℚ
  klass : Option ℕ
  deriving DecidableEq, Repr

def lapDeltas (laps : List LapRow) (sectors : List SectorRow)
    (drivers : List DriverRow) : List LDRow :=
  (laps.filter (fun l => isValidLap l.time)).filterMap (fun l =>
    ((idealLap laps sectors drivers).find?
        (fun i => decide (i.driver = l.driver ∧ i.lap = l.lap))).map
      (fun i => ⟨l.driver, l.lap, l.time, i.ideal,
        i.ideal.map (fun v => l.time - v), i.klass⟩))

/-- The `WHERE delta_main_s < 20` outlier filter of `driver_opportunities`
(SQL three-valued logic drops `NULL` deltas as well). -/
def deltaBelow20 (r : MSDRow) : Bool :=
  match r.delta with
  | some d => decide (d < 20)
  | none => false

/-- One row of `driver_opportunities`.  `consistencyVar` is the square of
the `STDDEV` column (see `varSamp`); the trailing `ORDER BY` only affects
row order, which no claim depends on. -/
structure OppRow where
  driver : ℕ
  main : MainSector
  avgLoss : ℚ
  consistencyVar : Option ℚ
  bestGain : ℚ
  deriving DecidableEq, Repr

def driverOpportunities (msd : List MSDRow) : List OppRow :=
  groupBy (fun r => (r.driver, r.main))
    (fun k rows =>
      ⟨k.1, k.2, listMean (rows.filterMap (fun r => r.delta)),
        varSamp (rows.filterMap (fun r => r.delta)),
        (listMin (rows.filterMap (fun r => r.delta))).getD 0⟩)
    (msd.filter deltaBelow20)

/-! ## Insights Assembler (src/analytics/insights.py)

Only the parts the claims reference are embedded: the per-driver lap
summary (`driver_summary_df`), the alias
`total_time_opportunity_s = best_delta_s`, and the top-3 opportunity
selection.  The physics-payload fallback chains and the `car_no`, `class`
and `race_id` columns are not referenced by any claim and are omitted;
the `round(x, 3)` display rounding applied just before JSON serialisation
is omitted (values are exact rationals).  The `JOIN drivers` of the summary
query only contributes those omitted columns (it can also drop a driver
absent from `drivers`, in which case the insights loop skips that driver
and emits nothing). -/

/-- One row of `driver_summary_df`: per driver,
`MIN(lap_time_s)`, `MIN(ideal_lap_time_s)`, `MIN(delta_lap_s)` over the
driver's `lap_deltas` rows. -/
structure SummaryRow where
  driver : ℕ
  bestLap : Option ℚ
  idealMin : Option ℚ
  bestDelta : Option ℚ
  deriving DecidableEq, Repr

def driverSummary (ld : List LDRow) : List SummaryRow :=
  groupBy (fun r => r.driver)
    (fun d rows =>
      ⟨d, listMin (rows.map (fun r => r.lapTime)),
        listMin (rows.filterMap (fun r => r.ideal)),
        listMin (rows.filterMap (fun r => r.delta))⟩)
    ld

/-- The driver document's `total_time_opportunity_s` field: the code sets
it to `best_delta_s` from the summary row
(src/analytics/insights.py lines 127 and 159). -/
def totalTimeOpportunity (ld : List LDRow) (d : ℕ) : Option ℚ :=
  ((driverSummary ld).find? (fun r => decide (r.driver = d))).bind
    (fun r => r.bestDelta)

/-- The driver document's `opportunities` list: the driver's
`driver_opportunities` rows sorted by descending `avg_loss_s` and cut to the
first three (`sort_values("avg_loss_s", ascending=False).head(3)`; pandas
sorting is stable, as is `List.mergeSort`). -/
def topOpportunities (ops : List OppRow) (d : ℕ) : List OppRow :=
  ((ops.filter (fun r => decide (r.driver = d))).mergeSort
    (fun a b => decide (b.avgLoss ≤ a.avgLoss))).take 3

/-! ## Physics-Reference Engine (src/pipelines/physics_sector_metrics.py)

`sector_physics_ranked` assigns
`ROW_NUMBER() OVER (PARTITION BY race_id, class, sector_id ORDER BY
sector_time_s ASC)` and `sector_physics_ref` keeps the rank-1 row per
partition.  `ORDER BY sector_time_s` alone does not discriminate between
rows with equal `sector_time_s`: which of them receives rank 1 depends on
the order in which the engine delivers the partition's rows.  The embedding
makes that dependence explicit by taking the rows as a list whose order
stands for the engine's physical row order; `pickRef` returns the first row
in that order among those with minimal `sector_time_s`.  The physics
payload columns are carried into the reference row unchanged and do not
influence the selection, so they are omitted from the embedded row. -/

/-- One row of `sector_physics_base` (payload columns omitted). -/
structure PhysBaseRow where
  race : ℕ
  klass : ℕ
  sector : MicroSector
  driver : ℕ
  lap : ℕ
  time : ℚ
  deriving DecidableEq, Repr

/-- First row in delivery order among those with minimal `sector_time_s`:
the row `ROW_NUMBER() = 1` lands on. -/
def pickRef (rows : List PhysBaseRow) : Option PhysBaseRow :=
  rows.foldl
    (fun acc r =>
      match acc with
      | none => some r
      | some b => if r.time < b.time then some r else acc)
    none

/-- The `PARTITION BY race_id, class, sector_id` key. -/
def refKey (r : PhysBaseRow) : ℕ × ℕ × MicroSector := (r.race, r.klass, r.sector)

/-- The `sector_physics_ref` row of one partition. -/
def sectorPhysicsRef (base : List PhysBaseRow) (k : ℕ × ℕ × MicroSector) :
    Option PhysBaseRow :=
  pickRef (grows refKey base k)

theorem pickRef_mem_aux (rows : List PhysBaseRow) (acc : PhysBaseRow)
    (r : PhysBaseRow)
    (h : rows.foldl
      (fun acc r =>
        match acc with
        | none => some r
        | some b => if r.time < b.time then some r else acc)
      (some acc) = some r) :
    (r = acc ∨ r ∈ rows) ∧ r.time ≤ acc.time ∧ ∀ x ∈ rows, r.time ≤ x.time := by
  induction rows generalizing acc with
  | nil =>
    simp at h
    subst h
    exact ⟨Or.inl rfl, le_refl _, by simp⟩
  | cons y ys ih =>
    simp only [List.foldl_cons] at h
    by_cases hy : y.time < acc.time
    · rw [if_pos hy] at h
      obtain ⟨hmem, hle, hall⟩ := ih y h
      refine ⟨?_, ?_, ?_⟩
      · rcases hmem with hh | hh
        · exact Or.inr (hh ▸ List.mem_cons_self y ys)
        · exact Or.inr (List.mem_cons_of_mem y hh)
      · exact le_trans hle (le_of_lt hy)
      · intro x hx
        rcases List.mem_cons.mp hx with hh | hh
        · exact hh ▸ hle
        · exact hall x hh
    · rw [if_neg hy] at h
      obtain ⟨hmem, hle, hall⟩ := ih acc h
      refine ⟨?_, hle, ?_⟩
      · rcases hmem with hh | hh
        · exact Or.inl hh
        · exact Or.inr (List.mem_cons_of_mem y hh)
      · intro x hx
        rcases List.mem_cons.mp hx with hh | hh
        · exact hh ▸ le_trans hle (le_of_not_lt hy)
        · exact hall x hh

/-- The picked reference belongs to the partition and its time is minimal. -/
theorem pickRef_spec (rows : List PhysBaseRow) (r : PhysBaseRow)
    (h : pickRef rows = some r) :
    r ∈ rows ∧ ∀ x ∈ rows, r.time ≤ x.time := by
  unfold pickRef at h
  cases rows with
  | nil => simp at h
  | cons y ys =>
    simp only [List.foldl_cons] at h
    obtain ⟨hmem, hle, hall⟩ := pickRef_mem_aux ys y r h
    refine ⟨?_, ?_⟩
    · rcases hmem with hh | hh
      · exact hh ▸ List.mem_cons_self y ys
      · exact List.mem_cons_of_mem y hh
    · intro x hx
      rcases List.mem_cons.mp hx with hh | hh
      · exact hh ▸ hle
      · exact hall x hh

/-! ## Shared lemmas about the embedded tables -/

theorem find?_ext {α : Type} (l : List α) (p q : α → Bool)
    (h : ∀ a, p a = q a) : l.find? p = l.find? q := by
  rw [funext h]

theorem filterMap_eq_map_of {α β : Type} (l : List α) (g : α → Option β)
    (f : α → β) (hg : ∀ a ∈ l, g a = some (f a)) :
    l.filterMap g = l.map f := by
  induction l with
  | nil => rfl
  | cons x xs ih =>
    rw [List.filterMap_cons, hg x (List.mem_cons_self x xs), List.map_cons,
      ih (fun a ha => hg a (List.mem_cons_of_mem x ha))]

theorem listMin_of_all_eq (l : List ℚ) (v : ℚ) (hne : l ≠ [])
    (h : ∀ x ∈ l, x = v) : listMin l = some v := by
  cases l with
  | nil => exact absurd rfl hne
  | cons x xs =>
    have hx : x = v := h x (List.mem_cons_self x xs)
    simp only [listMin]
    cases hxs : listMin xs with
    | none => rw [hx]
    | some m =>
      have hm : m = v :=
        h m (List.mem_cons_of_mem x (listMin_mem xs m hxs))
      rw [hx, hm]
      simp

/-! Spec-side formulations of the Ideal-Lap Engine quantities (§4.4 of the
spec), to be compared with the tables the code builds. -/

/-- Spec Step 2: the per-lap sum of the micro-sector times of one main
sector (micro-sector records must clear the 1-second floor). -/
def lapMainSum (sectors : List SectorRow) (d L : ℕ) (m : MainSector) : ℚ :=
  ((sectors.filter (fun s =>
    decide (s.driver = d ∧ s.lap = L ∧ mainOf s.sector = m ∧ 1 < s.time))).map
      (fun s => s.time)).sum

/-- The lap numbers on which a driver has qualifying records of main sector
`m`. -/
def mainLaps (sectors : List SectorRow) (d : ℕ) (m : MainSector) : List ℕ :=
  ((sectors.filter (fun s =>
    decide (s.driver = d ∧ mainOf s.sector = m ∧ 1 < s.time))).map
      (fun s => s.lap)).dedup

/-- Spec Step 3: `best_Sm` as the spec words it — the minimum over the
driver's laps of the per-lap sum of that main sector's micro-sector times,
taken independently per main sector. -/
def bestMainSpec (sectors : List SectorRow) (d : ℕ) (m : MainSector) :
    Option ℚ :=
  listMin ((mainLaps sectors d m).map (fun L => lapMainSum sectors d L m))

/-- The rows of one `(driver, lap, main)` bucket of the qualifying
micro-sector records are exactly `lapMainSum`'s filter. -/
theorem grows_skey_eq (sectors : List SectorRow) (d L : ℕ) (m : MainSector) :
    grows (fun s => (s.driver, s.lap, mainOf s.sector))
        (sectors.filter (fun s => decide (1 < s.time))) (d, L, m) =
      sectors.filter (fun s =>
        decide (s.driver = d ∧ s.lap = L ∧ mainOf s.sector = m ∧ 1 < s.time)) := by
  unfold grows
  rw [List.filter_filter]
  apply List.filter_congr
  intro s _
  refine Bool.eq_iff_iff.mpr ?_
  simp only [Bool.and_eq_true, decide_eq_true_eq, Prod.mk.injEq]
  tauto

/-- Characterisation of `lap_sector_sums` rows: one per (driver, lap, main
sector) with a qualifying record, carrying `lapMainSum` as its total. -/
theorem mem_lapSectorSums (sectors : List SectorRow) (r : SumRow) :
    r ∈ lapSectorSums sectors ↔
      ∃ d L m, (∃ s ∈ sectors,
          s.driver = d ∧ s.lap = L ∧ mainOf s.sector = m ∧ 1 < s.time) ∧
        r = ⟨d, L, m, lapMainSum sectors d L m⟩ := by
  unfold lapSectorSums
  rw [mem_groupBy]
  constructor
  · rintro ⟨⟨d, L, m⟩, hk, rfl⟩
    rw [mem_gkeys] at hk
    obtain ⟨s, hs, hkey⟩ := hk
    rw [List.mem_filter] at hs
    refine ⟨d, L, m, ⟨s, hs.1, ?_, ?_, ?_, ?_⟩, ?_⟩
    · exact congrArg Prod.fst hkey
    · exact congrArg (fun p => p.2.1) hkey
    · exact congrArg (fun p => p.2.2) hkey
    · simpa using hs.2
    · rw [grows_skey_eq]
      rfl
  · rintro ⟨d, L, m, ⟨s, hs, h1, h2, h3, h4⟩, rfl⟩
    refine ⟨(d, L, m), ?_, ?_⟩
    · rw [mem_gkeys]
      refine ⟨s, List.mem_filter.mpr ⟨hs, by simpa using h4⟩, ?_⟩
      show (s.driver, s.lap, mainOf s.sector) = (d, L, m)
      rw [h1, h2, h3]
    · rw [grows_skey_eq]
      rfl

/-- The `MIN(CASE WHEN main_sector = m ...)` bucket of one driver's
`ideal_lap_driver` group equals the spec-side `bestMainSpec`. -/
theorem ild_bucket (sectors : List SectorRow) (drivers : List DriverRow)
    (d : ℕ) (m : MainSector)
    (hd : (drivers.find? (fun x => decide (x.driver = d))).isSome) :
    listMin ((grows (fun r => r.driver)
        ((lapSectorSums sectors).filter (fun r =>
          (drivers.find? (fun x => decide (x.driver = r.driver))).isSome))
        d).filterMap (caseMain m)) = bestMainSpec sectors d m := by
  apply listMin_congr
  intro x
  rw [List.mem_filterMap, List.mem_map]
  constructor
  · rintro ⟨r, hr, hcase⟩
    rw [mem_grows] at hr
    obtain ⟨hrls, hrd⟩ := hr
    rw [List.mem_filter] at hrls
    have hrs := (mem_lapSectorSums sectors r).mp hrls.1
    obtain ⟨d', L, m', ⟨s, hs, h1, h2, h3, h4⟩, rfl⟩ := hrs
    unfold caseMain at hcase
    split at hcase
    · rename_i hmm
      simp only at hmm hrd
      subst hmm
      subst hrd
      simp only [Option.some.injEq] at hcase
      refine ⟨L, ?_, hcase⟩
      unfold mainLaps
      rw [List.mem_dedup, List.mem_map]
      exact ⟨s, List.mem_filter.mpr ⟨hs, by
        simp only [decide_eq_true_eq]
        exact ⟨h1, h3, h4⟩⟩, h2⟩
    · exact absurd hcase (by simp)
  · rintro ⟨L, hL, rfl⟩
    unfold mainLaps at hL
    rw [List.mem_dedup, List.mem_map] at hL
    obtain ⟨s, hsf, hsl⟩ := hL
    rw [List.mem_filter] at hsf
    simp only [decide_eq_true_eq] at hsf
    obtain ⟨hs, h1, h3, h4⟩ := hsf
    refine ⟨⟨d, L, m, lapMainSum sectors d L m⟩, ?_, ?_⟩
    · rw [mem_grows]
      refine ⟨List.mem_filter.mpr ⟨?_, ?_⟩, rfl⟩
      · exact (mem_lapSectorSums sectors _).mpr
          ⟨d, L, m, ⟨s, hs, h1, hsl, h3, h4⟩, rfl⟩
      · simpa using hd
    · unfold caseMain
      simp

/-- Looking a driver up in `ideal_lap_driver` yields the row of that
driver's class and three independently minimised main-sector bests,
provided the driver is in `drivers` and owns at least one qualifying
micro-sector record. -/
theorem ild_find? (sectors : List SectorRow) (drivers : List DriverRow)
    (d : ℕ) (dr : DriverRow)
    (hdr : drivers.find? (fun x => decide (x.driver = d)) = some dr)
    (hex : ∃ s ∈ sectors, s.driver = d ∧ 1 < s.time) :
    (idealLapDriver sectors drivers).find? (fun r => decide (r.driver = d)) =
      some ⟨d, some dr.klass, bestMainSpec sectors d .S1,
        bestMainSpec sectors d .S2, bestMainSpec sectors d .S3⟩ := by
  obtain ⟨s, hs, hsd, hst⟩ := hex
  have hdsome : (drivers.find? (fun x => decide (x.driver = d))).isSome := by
    rw [hdr]; rfl
  have hk : d ∈ gkeys (fun r : SumRow => r.driver)
      ((lapSectorSums sectors).filter (fun r =>
        (drivers.find? (fun x => decide (x.driver = r.driver))).isSome)) := by
    rw [mem_gkeys]
    refine ⟨⟨d, s.lap, mainOf s.sector, lapMainSum sectors d s.lap (mainOf s.sector)⟩,
      List.mem_filter.mpr ⟨?_, ?_⟩, rfl⟩
    · exact (mem_lapSectorSums sectors _).mpr
        ⟨d, s.lap, mainOf s.sector, ⟨s, hs, hsd, rfl, rfl, hst⟩, rfl⟩
    · simpa using hdsome
  have h := find?_groupBy (fun r : SumRow => r.driver)
    (fun d rows =>
      (⟨d, (drivers.find? (fun dr => decide (dr.driver = d))).map (fun dr => dr.klass),
        listMin (rows.filterMap (caseMain .S1)),
        listMin (rows.filterMap (caseMain .S2)),
        listMin (rows.filterMap (caseMain .S3))⟩ : ILDRow))
    ((lapSectorSums sectors).filter (fun r =>
      (drivers.find? (fun x => decide (x.driver = r.driver))).isSome))
    (fun r => r.driver) (fun _ _ => rfl) d hk
  refine h.trans ?_
  beta_reduce
  rw [hdr]
  rw [ild_bucket sectors drivers d .S1 hdsome,
    ild_bucket sectors drivers d .S2 hdsome,
    ild_bucket sectors drivers d .S3 hdsome]
  rfl

/-- Looking up `(class, micro-sector)` in `ideal_lap_segments_class`
succeeds for every qualifying record of a driver present in `drivers`. -/
theorem ils_find?_ex (sectors : List SectorRow) (drivers : List DriverRow)
    (s : SectorRow) (dr : DriverRow) (hs : s ∈ sectors) (ht : 1 < s.time)
    (hdr : drivers.find? (fun x => decide (x.driver = s.driver)) = some dr) :
    ∃ c : ILSRow, (idealLapSegmentsClass sectors drivers).find?
      (fun r => decide (r.sector = s.sector ∧ r.klass = dr.klass)) = some c := by
  have hpred : ∀ r : ILSRow,
      (decide (r.sector = s.sector ∧ r.klass = dr.klass)) =
        (decide ((fun r : ILSRow => (r.klass, r.sector)) r = (dr.klass, s.sector))) := by
    intro r
    refine Bool.eq_iff_iff.mpr ?_
    simp only [decide_eq_true_eq, Prod.mk.injEq]
    tauto
  rw [find?_ext _ _ _ hpred]
  have hk : (dr.klass, s.sector) ∈ gkeys (fun p : ℕ × SectorRow => (p.1, p.2.sector))
      ((sectors.filter (fun s => decide (1 < s.time))).filterMap
        (fun s => (drivers.find? (fun d => decide (d.driver = s.driver))).map
          (fun d => (d.klass, s)))) := by
    rw [mem_gkeys]
    refine ⟨(dr.klass, s), ?_, rfl⟩
    rw [List.mem_filterMap]
    refine ⟨s, List.mem_filter.mpr ⟨hs, by simpa using ht⟩, ?_⟩
    rw [hdr]
    rfl
  unfold idealLapSegmentsClass
  rw [find?_groupBy (fun p : ℕ × SectorRow => (p.1, p.2.sector))
    (fun k rows => (⟨k.1, k.2, (listMin (rows.map (fun p => p.2.time))).getD 0⟩ : ILSRow))
    _ (fun r => (r.klass, r.sector)) (fun _ _ => rfl) _ hk]
  exact ⟨_, rfl⟩

/-- Projecting a value out of the rows of one group of a `filterMap`-built
table equals projecting it from the matching source rows, when the builder
preserves the group key and the projected value. -/
theorem grows_filterMap_map {α β κ : Type} [DecidableEq κ] (F : α → Option β)
    (l : List α) (pk : α → κ) (rk : β → κ) (pv : α → ℚ) (rv : β → ℚ)
    (hF : ∀ a b, F a = some b → rk b = pk a ∧ rv b = pv a) (k : κ) :
    (grows rk (l.filterMap F) k).map rv =
      (l.filter (fun a => (F a).isSome && decide (pk a = k))).map pv := by
  induction l with
  | nil => rfl
  | cons x xs ih =>
    cases hx : F x with
    | none =>
      rw [List.filterMap_cons, List.filter_cons]
      simp only [hx]
      simpa using ih
    | some b =>
      obtain ⟨hk1, hv1⟩ := hF x b hx
      rw [List.filterMap_cons, List.filter_cons]
      simp only [hx]
      unfold grows at ih ⊢
      rw [List.filter_cons]
      by_cases hbk : pk x = k
      · have hrb : decide (rk b = k) = true := by
          rw [hk1, hbk]
          exact decide_eq_true rfl
        simp [hrb, hbk, hv1, ih]
      · have hrb : decide (rk b = k) = false := by
          rw [hk1]
          exact decide_eq_false hbk
        simp [hrb, hbk, ih]

/-- Destructs a successful `sdBuild`: the three lookups succeeded and the
row's fields are the query's select list. -/
theorem sdBuild_fields (sectors : List SectorRow) (drivers : List DriverRow)
    (s : SectorRow) (r : SDRow) (h : sdBuild sectors drivers s = some r) :
    ∃ dr c b,
      drivers.find? (fun x => decide (x.driver = s.driver)) = some dr ∧
      (idealLapSegmentsClass sectors drivers).find?
        (fun x => decide (x.sector = s.sector ∧ x.klass = dr.klass)) = some c ∧
      (idealLapDriver sectors drivers).find?
        (fun x => decide (x.driver = s.driver)) = some b ∧
      r = ⟨s.driver, s.lap, s.sector, mainOf s.sector, s.time,
        c.best, s.time - c.best,
        caseBest (mainOf s.sector) b,
        (caseBest (mainOf s.sector) b).map (fun v => s.time - v),
        b.bS1, b.bS2, b.bS3, dr.klass⟩ := by
  unfold sdBuild at h
  simp only [Option.bind_eq_some] at h
  obtain ⟨dr, hdr, c, hc, b, hb, hr⟩ := h
  simp only [Option.some.injEq] at hr
  exact ⟨dr, c, b, hdr, hc, hb, hr.symm⟩

/-- Conversely, a qualifying record of a driver found in `drivers` always
produces a `sector_deltas` row. -/
theorem sdBuild_isSome (sectors : List SectorRow) (drivers : List DriverRow)
    (s : SectorRow) (dr : DriverRow) (hs : s ∈ sectors) (ht : 1 < s.time)
    (hdr : drivers.find? (fun x => decide (x.driver = s.driver)) = some dr) :
    (sdBuild sectors drivers s).isSome := by
  obtain ⟨c, hc⟩ := ils_find?_ex sectors drivers s dr hs ht hdr
  have hild := ild_find? sectors drivers s.driver dr hdr ⟨s, hs, rfl, ht⟩
  unfold sdBuild
  rw [hdr, Option.some_bind, hc, Option.some_bind, hild, Option.some_bind]
  rfl


/-- The micro-sector times of one `(driver, lap, main)` group of
`sector_deltas` are exactly the lap's qualifying micro-sector times of that
main sector — the `SUM(sector_time_s)` of `main_sector_deltas` therefore
equals `lapMainSum`. -/
theorem sd_group_times (sectors : List SectorRow) (drivers : List DriverRow)
    (d L : ℕ) (m : MainSector)
    (hd : (drivers.find? (fun x => decide (x.driver = d))).isSome) :
    ((grows (fun r : SDRow => (r.driver, r.lap, r.main))
        (sectorDeltas sectors drivers) (d, L, m)).map (fun r => r.time)) =
      ((sectors.filter (fun s =>
        decide (s.driver = d ∧ s.lap = L ∧ mainOf s.sector = m ∧ 1 < s.time))).map
          (fun s => s.time)) := by
  unfold sectorDeltas
  rw [grows_filterMap_map (sdBuild sectors drivers) _
    (fun s => (s.driver, s.lap, mainOf s.sector)) _ (fun s => s.time)
    (fun r => r.time) ?hF (d, L, m)]
  case hF =>
    intro a b hab
    obtain ⟨dr, c, bb, _, _, _, hrow⟩ := sdBuild_fields sectors drivers a b hab
    rw [hrow]
    exact ⟨rfl, rfl⟩
  rw [← grows_skey_eq]
  unfold grows
  rw [List.filter_filter, List.filter_filter]
  congr 1
  apply List.filter_congr
  intro s hs
  by_cases hkey : (s.driver, s.lap, mainOf s.sector) = (d, L, m)
  · have hsd : s.driver = d := congrArg Prod.fst hkey
    by_cases hts : (1 : ℚ) < s.time
    · have : (sdBuild sectors drivers s).isSome := by
        rw [Option.isSome_iff_exists] at hd
        obtain ⟨dr, hdr⟩ := hd
        refine sdBuild_isSome sectors drivers s dr hs hts ?_
        rw [show (fun x : DriverRow => decide (x.driver = s.driver)) =
          (fun x : DriverRow => decide (x.driver = d)) from by
            funext x
            rw [hsd]]
        exact hdr
      simp [this, hkey, hts]
    · simp [hts]
  · simp [hkey]

/-- Every row of one `(driver, lap, main)` group of `sector_deltas` carries
the same personal-best columns, namely the looked-up driver's
independently minimised main-sector bests. -/
theorem sd_group_bS (sectors : List SectorRow) (drivers : List DriverRow)
    (d L : ℕ) (m : MainSector) (r : SDRow)
    (hr : r ∈ grows (fun r : SDRow => (r.driver, r.lap, r.main))
      (sectorDeltas sectors drivers) (d, L, m)) :
    r.bS1 = bestMainSpec sectors d .S1 ∧
    r.bS2 = bestMainSpec sectors d .S2 ∧
    r.bS3 = bestMainSpec sectors d .S3 := by
  rw [mem_grows] at hr
  obtain ⟨hmem, hkey⟩ := hr
  unfold sectorDeltas at hmem
  rw [List.mem_filterMap] at hmem
  obtain ⟨s, hsf, hbuild⟩ := hmem
  rw [List.mem_filter] at hsf
  obtain ⟨hdb, cb, bb, hdr, _, hb, hrow⟩ :=
    sdBuild_fields sectors drivers s r hbuild
  have hsd : s.driver = d := by
    have : r.driver = d := congrArg Prod.fst hkey
    rw [hrow] at this
    exact this
  rw [hsd] at hdr hb
  have hild := ild_find? sectors drivers d hdb hdr
    ⟨s, hsf.1, hsd, by simpa using hsf.2⟩
  rw [hild] at hb
  simp only [Option.some.injEq] at hb
  rw [hrow, ← hb]
  exact ⟨rfl, rfl, rfl⟩

/-! ## Claim theorems -/

/-- C3: in a (driver, lap, sector) partition ordered by `lap_progress`, a
sample with a predecessor is flagged as a hesitation event iff its
`throttle_pct` lies in [40, 70] and the preceding sample's does not
(entries into the band count once, levels do not re-fire), and the
spec's scenario throttle sequence [30, 55, 60, 35, 50] yields
`hesitation_count = 2`. -/
theorem claim_C3 :
    (∀ (ts : List ℚ) (i : ℕ), i + 1 < ts.length →
      (hesFlags ts).getD (i + 1) false =
        (midThrottle (ts.getD (i + 1) 0) && !midThrottle (ts.getD i 0))) ∧
    hesitationCount [30, 55, 60, 35, 50] = 2 :=
  ⟨fun ts i h => hesFlagsAux_getD false ts i h, by decide⟩

/-- C3 witness: the general part of C3 applied to the scenario list at
position 2 (the first hesitation entry). -/
theorem claim_C3_witness :
    (hesFlags [30, 55, 60, 35, 50]).getD (0 + 1) false =
      (midThrottle (([30, 55, 60, 35, 50] : List ℚ).getD (0 + 1) 0) &&
        !midThrottle (([30, 55, 60, 35, 50] : List ℚ).getD 0 0)) ∧
    hesitationCount [30, 55, 60, 35, 50] = 2 :=
  ⟨claim_C3.1 [30, 55, 60, 35, 50] 0 (by decide), claim_C3.2⟩

/-- C4 counterexample: the first sample of a partition IS flagged when its
own throttle is mid-band — the lagged value defaults to FALSE, so a
partition that opens inside [40, 70] fires an entry event on its first
sample, contrary to the claim that the first sample can never be one. -/
theorem claim_C4_counterexample :
    midThrottle 50 = true ∧ (hesFlags [50, 30]).getD 0 false = true := by
  decide

/-- C4 amended: the lagged `mid_throttle` of the first sample defaults to
FALSE (`lag(mid_throttle, 1, FALSE)`), so the first sample of a partition
is flagged exactly when its own `throttle_pct` lies in [40, 70]. -/
theorem claim_C4_amended (t : ℚ) (ts : List ℚ) :
    (hesFlags (t :: ts)).getD 0 false = midThrottle t := by
  simp [hesFlags, hesFlagsAux]

theorem splitOnChar_ne_nil (c : Char) (v : List Char) :
    splitOnChar c v ≠ [] := by
  induction v with
  | nil => simp [splitOnChar]
  | cons x xs ih =>
    unfold splitOnChar
    by_cases hx : x = c
    · simp [hx]
    · simp only [if_neg hx]
      cases hr : splitOnChar c xs with
      | nil => simp
      | cons h t => simp

theorem splitOnChar_any (c : Char) (v : List Char)
    (h : 2 ≤ (splitOnChar c v).length) :
    v.any (fun x => decide (x = c)) = true := by
  induction v with
  | nil => simp [splitOnChar] at h
  | cons x xs ih =>
    by_cases hx : x = c
    · simp [hx]
    · unfold splitOnChar at h
      rw [if_neg hx] at h
      cases hr : splitOnChar c xs with
      | nil => exact absurd hr (splitOnChar_ne_nil c xs)
      | cons hh tt =>
        rw [hr] at h
        simp only [List.length_cons] at h
        have : 2 ≤ (splitOnChar c xs).length := by
          rw [hr]
          simpa using h
        simp [List.any_cons, hx, ih this]

/-- C6 counterexample: on the three-part clock string `1:02:03.5` the code
returns `2*60 + 3.5 = 123.5` seconds — the leading hour part is dropped,
not converted at `hour*3600` as the claim states (that would give
`3723.5`). -/
theorem claim_C6_counterexample :
    parse_time (.strVal (r"1:02:03.5")) = some (mkRat 247 2) ∧
    (mkRat 247 2 : ℚ) ≠ 1 * 3600 + 2 * 60 + mkRat 7 2 := by
  constructor
  · simp [parse_time, stripEnds, splitOnChar, pyInt?, pyFloat?, allDigits,
      digitsToNat]
    norm_num [mkRat]
  · norm_num [mkRat]

/-- C6 amended: `parse_time` is total (missing and unparseable values give
`None`, nothing raises) and behaves as follows: a `datetime.time` value is
converted to seconds from midnight; a string containing a colon is split
on colons into integer minutes — taken from the middle part when there are
exactly three parts, the leading hour part being ignored entirely — plus
fractional seconds from the last part, `None` when either conversion
fails; a string without a colon undergoes direct numeric coercion; a
number is returned as is. -/
theorem claim_C6_amended :
    (∀ h m s us : ℕ, parse_time (.timeOfDay h m s us) =
      some ((h : ℚ) * 3600 + m * 60 + s + mkRat us 1000000)) ∧
    (∀ (s : String) (p0 p1 p2 : List Char),
      splitOnChar ':' (stripEnds s.data) = [p0, p1, p2] →
      parse_time (.strVal s) =
        match pyInt? p1, pyFloat? p2 with
        | some mins, some sec => some ((mins : ℚ) * 60 + sec)
        | _, _ => none) ∧
    (∀ (s : String) (p0 p1 : List Char),
      splitOnChar ':' (stripEnds s.data) = [p0, p1] →
      parse_time (.strVal s) =
        match pyInt? p0, pyFloat? p1 with
        | some mins, some sec => some ((mins : ℚ) * 60 + sec)
        | _, _ => none) ∧
    (∀ s : String, (stripEnds s.data).any (fun c => decide (c = ':')) = false →
      parse_time (.strVal s) = pyFloat? (stripEnds s.data)) ∧
    parse_time .noneVal = none ∧
    parse_time .nanVal = none ∧
    (∀ x : ℚ, parse_time (.numVal x) = some x) ∧
    parse_time (.strVal (r"abc")) = none := by
  refine ⟨fun h m s us => rfl, ?_, ?_, ?_, rfl, rfl, fun x => rfl, ?_⟩
  · intro s p0 p1 p2 hsplit
    have hany : (stripEnds s.data).any (fun c => decide (c = ':')) = true := by
      apply splitOnChar_any
      rw [hsplit]
      simp
    simp only [parse_time, hany, if_true, hsplit]
    rfl
  · intro s p0 p1 hsplit
    have hany : (stripEnds s.data).any (fun c => decide (c = ':')) = true := by
      apply splitOnChar_any
      rw [hsplit]
      simp
    simp only [parse_time, hany, if_true, hsplit]
    rfl
  · intro s hno
    simp only [parse_time, hno, Bool.false_eq_true, if_false]
  · simp [parse_time, stripEnds, splitOnChar, pyFloat?, allDigits, digitsToNat]

/-- C6 witness: the string branches of the amended claim evaluated on the
three-part string of the counterexample and on a plain clock string. -/
theorem claim_C6_witness :
    (parse_time (.strVal (r"1:02:03.5")) =
      match pyInt? ['0', '2'], pyFloat? ['0', '3', '.', '5'] with
      | some mins, some sec => some ((mins : ℚ) * 60 + sec)
      | _, _ => none) ∧
    (parse_time (.strVal (r"1:22.4")) =
      match pyInt? ['1'], pyFloat? ['2', '2', '.', '4'] with
      | some mins, some sec => some ((mins : ℚ) * 60 + sec)
      | _, _ => none) :=
  ⟨claim_C6_amended.2.1 (r"1:02:03.5") ['1'] ['0', '2'] ['0', '3', '.', '5']
      (by decide),
    claim_C6_amended.2.2.1 (r"1:22.4") ['1'] ['2', '2', '.', '4'] (by decide)⟩

/-- C7 counterexample: two drivers of one (race, class, micro-sector)
group tie at `sector_time_s = 18.2` (spec Scenario 4).  The two base
tables hold exactly the same rows — they are permutations of each other,
i.e. the same relation — yet the selected reference differs with the
order in which the engine delivers the rows, because
`ROW_NUMBER() OVER (... ORDER BY sector_time_s ASC)` has no tie-break
key.  Determinism of the selection under ties is therefore not guaranteed
by the code. -/
theorem claim_C7_counterexample :
    ([⟨0, 0, .S1a, 1, 1, mkRat 91 5⟩, ⟨0, 0, .S1a, 2, 1, mkRat 91 5⟩] :
        List PhysBaseRow).Perm
      [⟨0, 0, .S1a, 2, 1, mkRat 91 5⟩, ⟨0, 0, .S1a, 1, 1, mkRat 91 5⟩] ∧
    sectorPhysicsRef
        [⟨0, 0, .S1a, 1, 1, mkRat 91 5⟩, ⟨0, 0, .S1a, 2, 1, mkRat 91 5⟩]
        (0, 0, .S1a) ≠
      sectorPhysicsRef
        [⟨0, 0, .S1a, 2, 1, mkRat 91 5⟩, ⟨0, 0, .S1a, 1, 1, mkRat 91 5⟩]
        (0, 0, .S1a) := by
  constructor
  · exact List.Perm.swap _ _ _
  · decide

/-- C7 amended: the reference row of a (race, class, micro-sector) group is
always an instance of that group with the minimum `sector_time_s`, but when
several instances tie for the minimum the choice among them depends on the
physical row order (`ROW_NUMBER` has no secondary sort key), so it is not
determined by the input relation. -/
theorem claim_C7_amended (base : List PhysBaseRow) (k : ℕ × ℕ × MicroSector)
    (r : PhysBaseRow) (h : sectorPhysicsRef base k = some r) :
    r ∈ grows refKey base k ∧ refKey r = k ∧
      ∀ x ∈ grows refKey base k, r.time ≤ x.time := by
  obtain ⟨hmem, hmin⟩ := pickRef_spec (grows refKey base k) r h
  exact ⟨hmem, ((mem_grows refKey base k r).mp hmem).2, hmin⟩

/-- C7 witness: the amended claim applied to the two-row tied group of the
counterexample. -/
theorem claim_C7_witness :
    (⟨0, 0, .S1a, 1, 1, mkRat 91 5⟩ : PhysBaseRow) ∈
      grows refKey
        [⟨0, 0, .S1a, 1, 1, mkRat 91 5⟩, ⟨0, 0, .S1a, 2, 1, mkRat 91 5⟩]
        (0, 0, .S1a) ∧
    refKey (⟨0, 0, .S1a, 1, 1, mkRat 91 5⟩ : PhysBaseRow) = (0, 0, .S1a) ∧
    ∀ x ∈ grows refKey
        [⟨0, 0, .S1a, 1, 1, mkRat 91 5⟩, ⟨0, 0, .S1a, 2, 1, mkRat 91 5⟩]
        (0, 0, .S1a),
      (⟨0, 0, .S1a, 1, 1, mkRat 91 5⟩ : PhysBaseRow).time ≤ x.time :=
  claim_C7_amended
    [⟨0, 0, .S1a, 1, 1, mkRat 91 5⟩, ⟨0, 0, .S1a, 2, 1, mkRat 91 5⟩]
    (0, 0, .S1a) ⟨0, 0, .S1a, 1, 1, mkRat 91 5⟩ (by decide)

/-- Spec-side: the deltas a `driver_opportunities` row must aggregate —
exactly the driver's main-sector deltas strictly below 20 seconds. -/
def oppDeltas (msd : List MSDRow) (d : ℕ) (m : MainSector) : List ℚ :=
  ((msd.filter (fun r => decide (r.driver = d ∧ r.main = m))).filterMap
    (fun r => r.delta)).filter (fun x => decide (x < 20))

theorem oppDeltas_eq (msd : List MSDRow) (d : ℕ) (m : MainSector) :
    (grows (fun r : MSDRow => (r.driver, r.main)) (msd.filter deltaBelow20)
        (d, m)).filterMap (fun r => r.delta) = oppDeltas msd d m := by
  unfold grows oppDeltas
  induction msd with
  | nil => rfl
  | cons r rs ih =>
    cases hd : r.delta with
    | none =>
      have hb : deltaBelow20 r = false := by
        unfold deltaBelow20
        rw [hd]
      by_cases hk : r.driver = d ∧ r.main = m
      · obtain ⟨hk1, hk2⟩ := hk
        simp [List.filter_cons, List.filterMap_cons, hb, hk1, hk2, hd]
        simpa using ih
      · simp [List.filter_cons, List.filterMap_cons, hb, hk]
        simpa using ih
    | some x =>
      have hb : deltaBelow20 r = decide (x < 20) := by
        unfold deltaBelow20
        rw [hd]
      by_cases hk : r.driver = d ∧ r.main = m
      · obtain ⟨hk1, hk2⟩ := hk
        by_cases hx : x < 20
        · simp [List.filter_cons, List.filterMap_cons, hb, hk1, hk2, hx, hd,
            Prod.mk.injEq]
          simpa using ih
        · simp [List.filter_cons, List.filterMap_cons, hb, hk1, hk2, hx, hd,
            Prod.mk.injEq]
          simpa using ih
      · by_cases hx : x < 20
        · simp [List.filter_cons, List.filterMap_cons, hb, hk, hx, hd]
          simpa using ih
        · simp [List.filter_cons, List.filterMap_cons, hb, hk, hx, hd]
          simpa using ih

/-- C5 counterexample: two main-sector deltas 0 s and 2 s for one
(driver, main sector).  The code's `consistency_s` is DuckDB `STDDEV`,
i.e. the sample standard deviation: its square is `2` here, whereas the
square of the population standard deviation the claim prescribes is `1`;
both deviations are nonnegative, so the values differ. -/
theorem claim_C5_counterexample :
    driverOpportunities
        [⟨1, 1, .S1, 0, some 0, some 0⟩, ⟨1, 2, .S1, 2, some 0, some 2⟩] =
      [⟨1, .S1, 1, some 2, 0⟩] ∧
    varPop [0, 2] = some 1 ∧ (2 : ℚ) ≠ 1 := by
  refine ⟨?_, ?_, by norm_num⟩
  · have h0 : (0 : ℚ) < 20 := by norm_num
    have h2 : (2 : ℚ) < 20 := by norm_num
    simp [driverOpportunities, groupBy, gkeys, grows, deltaBelow20, listMin,
      h0, h2]
    norm_num [listMean, varSamp]
  · norm_num [varPop, listMean]

/-- C5 amended: a `driver_opportunities` row aggregates exactly the
driver's main-sector deltas strictly below 20 s — adding (or removing) a
row whose delta is ≥ 20 s (or `NULL`) leaves the table unchanged — with
`avg_loss_s` their mean, `best_gain_s` their minimum, and `consistency_s`
their SAMPLE standard deviation (square root of `varSamp`; `NULL` for a
single-delta group), not the population standard deviation. -/
theorem claim_C5 :
    (∀ (msd : List MSDRow) (r : MSDRow), (∀ x, r.delta = some x → 20 ≤ x) →
      driverOpportunities (r :: msd) = driverOpportunities msd) ∧
    (∀ (msd : List MSDRow) (row : OppRow), row ∈ driverOpportunities msd →
      row.avgLoss = listMean (oppDeltas msd row.driver row.main) ∧
      row.consistencyVar = varSamp (oppDeltas msd row.driver row.main) ∧
      row.bestGain = (listMin (oppDeltas msd row.driver row.main)).getD 0) := by
  constructor
  · intro msd r h
    have hb : deltaBelow20 r = false := by
      unfold deltaBelow20
      cases hd : r.delta with
      | none => rfl
      | some x =>
        have := h x hd
        simp [not_lt.mpr this]
    unfold driverOpportunities
    rw [List.filter_cons, if_neg (by rw [hb]; simp)]
  · intro msd row hrow
    unfold driverOpportunities at hrow
    rw [mem_groupBy] at hrow
    obtain ⟨⟨d, m⟩, hk, rfl⟩ := hrow
    refine ⟨?_, ?_, ?_⟩ <;> simp only [oppDeltas_eq msd d m]

/-- C5 witness: outlier invariance applied to a concrete 25-second pit
delta, and the aggregation formulas applied to a concrete one-row group. -/
theorem claim_C5_witness :
    driverOpportunities
        [⟨1, 3, .S1, 25, some 0, some 25⟩, ⟨1, 1, .S1, 0, some 0, some 0⟩] =
      driverOpportunities [⟨1, 1, .S1, 0, some 0, some 0⟩] ∧
    ((0 : ℚ) = listMean (oppDeltas [⟨2, 1, .S2, 5, some 5, some 0⟩] 2 .S2) ∧
      (none : Option ℚ) =
        varSamp (oppDeltas [⟨2, 1, .S2, 5, some 5, some 0⟩] 2 .S2) ∧
      (0 : ℚ) =
        (listMin (oppDeltas [⟨2, 1, .S2, 5, some 5, some 0⟩] 2 .S2)).getD 0) := by
  constructor
  · exact claim_C5.1 [⟨1, 1, .S1, 0, some 0, some 0⟩]
      ⟨1, 3, .S1, 25, some 0, some 25⟩
      (by
        intro x hx
        injection hx with h
        subst h
        decide)
  · exact claim_C5.2 [⟨2, 1, .S2, 5, some 5, some 0⟩] ⟨2, .S2, 0, none, 0⟩
      (by
        have h0 : (0 : ℚ) < 20 := by norm_num
        simp [driverOpportunities, groupBy, gkeys, grows, deltaBelow20,
          listMin, h0]
        norm_num [listMean, varSamp])

/-- Every `ideal_lap_driver` row carries the spec's three independently
minimised main-sector bests of its driver. -/
theorem ild_row_fields (sectors : List SectorRow) (drivers : List DriverRow)
    (i : ILDRow) (hi : i ∈ idealLapDriver sectors drivers) :
    i.bS1 = bestMainSpec sectors i.driver .S1 ∧
    i.bS2 = bestMainSpec sectors i.driver .S2 ∧
    i.bS3 = bestMainSpec sectors i.driver .S3 := by
  unfold idealLapDriver at hi
  rw [mem_groupBy] at hi
  obtain ⟨d, hk, rfl⟩ := hi
  have hd : (drivers.find? (fun x => decide (x.driver = d))).isSome := by
    rw [mem_gkeys] at hk
    obtain ⟨r, hr, hkey⟩ := hk
    rw [List.mem_filter] at hr
    have : r.driver = d := hkey
    rw [← this]
    simpa using hr.2
  exact ⟨ild_bucket sectors drivers d .S1 hd,
    ild_bucket sectors drivers d .S2 hd,
    ild_bucket sectors drivers d .S3 hd⟩

/-- Every `ideal_lap` row's best, ideal and delta columns are the spec's
formulas of its driver and lap time. -/
theorem idealLap_row_fields (laps : List LapRow) (sectors : List SectorRow)
    (drivers : List DriverRow) (row : IdealRow)
    (hrow : row ∈ idealLap laps sectors drivers) :
    row.bS1 = bestMainSpec sectors row.driver .S1 ∧
    row.bS2 = bestMainSpec sectors row.driver .S2 ∧
    row.bS3 = bestMainSpec sectors row.driver .S3 ∧
    row.ideal = optAdd3 (bestMainSpec sectors row.driver .S1)
      (bestMainSpec sectors row.driver .S2)
      (bestMainSpec sectors row.driver .S3) ∧
    row.delta = row.ideal.map (fun v => row.lapTime - v) := by
  unfold idealLap at hrow
  rw [List.mem_filterMap] at hrow
  obtain ⟨l, hl, hmap⟩ := hrow
  rw [Option.map_eq_some'] at hmap
  obtain ⟨i, hfind, hbuild⟩ := hmap
  have hi : i ∈ idealLapDriver sectors drivers :=
    List.mem_of_find?_eq_some hfind
  have hid : i.driver = l.driver := by
    have := List.find?_some hfind
    simpa using this
  obtain ⟨h1, h2, h3⟩ := ild_row_fields sectors drivers i hi
  rw [← hbuild]
  refine ⟨?_, ?_, ?_, ?_, rfl⟩ <;>
    simp only [hid] at h1 h2 h3 <;> simp [h1, h2, h3]

/-- C2: for every row of `ideal_lap`, each personal best `best_Sn` is the
minimum over that driver's laps of the per-lap sum of that main sector's
qualifying micro-sector times, the three minima taken independently
(possibly on different laps); `ideal_lap_time_s` is their
`NULL`-propagating sum, it is the same on every `ideal_lap` row of the
driver, and `delta_to_ideal_s = lap_time_s - ideal_lap_time_s`. -/
theorem claim_C2 (laps : List LapRow) (sectors : List SectorRow)
    (drivers : List DriverRow) (row : IdealRow)
    (hrow : row ∈ idealLap laps sectors drivers) :
    row.bS1 = bestMainSpec sectors row.driver .S1 ∧
    row.bS2 = bestMainSpec sectors row.driver .S2 ∧
    row.bS3 = bestMainSpec sectors row.driver .S3 ∧
    row.ideal = optAdd3 (bestMainSpec sectors row.driver .S1)
      (bestMainSpec sectors row.driver .S2)
      (bestMainSpec sectors row.driver .S3) ∧
    (∀ row' ∈ idealLap laps sectors drivers,
      row'.driver = row.driver → row'.ideal = row.ideal) ∧
    row.delta = row.ideal.map (fun v => row.lapTime - v) := by
  obtain ⟨h1, h2, h3, h4, h5⟩ :=
    idealLap_row_fields laps sectors drivers row hrow
  refine ⟨h1, h2, h3, h4, ?_, h5⟩
  intro row' hrow' hdrv
  obtain ⟨_, _, _, h4', _⟩ :=
    idealLap_row_fields laps sectors drivers row' hrow'
  rw [h4', h4, hdrv]

/-- C2 witness: the claim applied to the single valid lap of a driver with
one qualifying micro-sector per main sector (bests 20, 21, 18; composite
ideal 59; delta 100 − 59 = 41). -/
theorem claim_C2_witness :
    (⟨7, 3, 100, some 0, some 20, some 21, some 18, some 59, some 41⟩ :
        IdealRow).bS1 =
      bestMainSpec [⟨7, 3, .S1a, 20⟩, ⟨7, 3, .S2a, 21⟩, ⟨7, 3, .S3a, 18⟩]
        (⟨7, 3, 100, some 0, some 20, some 21, some 18, some 59, some 41⟩ :
          IdealRow).driver .S1 ∧
    (⟨7, 3, 100, some 0, some 20, some 21, some 18, some 59, some 41⟩ :
        IdealRow).bS2 =
      bestMainSpec [⟨7, 3, .S1a, 20⟩, ⟨7, 3, .S2a, 21⟩, ⟨7, 3, .S3a, 18⟩]
        (⟨7, 3, 100, some 0, some 20, some 21, some 18, some 59, some 41⟩ :
          IdealRow).driver .S2 ∧
    (⟨7, 3, 100, some 0, some 20, some 21, some 18, some 59, some 41⟩ :
        IdealRow).bS3 =
      bestMainSpec [⟨7, 3, .S1a, 20⟩, ⟨7, 3, .S2a, 21⟩, ⟨7, 3, .S3a, 18⟩]
        (⟨7, 3, 100, some 0, some 20, some 21, some 18, some 59, some 41⟩ :
          IdealRow).driver .S3 ∧
    (⟨7, 3, 100, some 0, some 20, some 21, some 18, some 59, some 41⟩ :
        IdealRow).ideal =
      optAdd3
        (bestMainSpec [⟨7, 3, .S1a, 20⟩, ⟨7, 3, .S2a, 21⟩, ⟨7, 3, .S3a, 18⟩]
          (⟨7, 3, 100, some 0, some 20, some 21, some 18, some 59, some 41⟩ :
            IdealRow).driver .S1)
        (bestMainSpec [⟨7, 3, .S1a, 20⟩, ⟨7, 3, .S2a, 21⟩, ⟨7, 3, .S3a, 18⟩]
          (⟨7, 3, 100, some 0, some 20, some 21, some 18, some 59, some 41⟩ :
            IdealRow).driver .S2)
        (bestMainSpec [⟨7, 3, .S1a, 20⟩, ⟨7, 3, .S2a, 21⟩, ⟨7, 3, .S3a, 18⟩]
          (⟨7, 3, 100, some 0, some 20, some 21, some 18, some 59, some 41⟩ :
            IdealRow).driver .S3) ∧
    (∀ row' ∈ idealLap [⟨7, 3, 100⟩]
        [⟨7, 3, .S1a, 20⟩, ⟨7, 3, .S2a, 21⟩, ⟨7, 3, .S3a, 18⟩] [⟨7, 0⟩],
      row'.driver =
        (⟨7, 3, 100, some 0, some 20, some 21, some 18, some 59, some 41⟩ :
          IdealRow).driver →
      row'.ideal =
        (⟨7, 3, 100, some 0, some 20, some 21, some 18, some 59, some 41⟩ :
          IdealRow).ideal) ∧
    (⟨7, 3, 100, some 0, some 20, some 21, some 18, some 59, some 41⟩ :
        IdealRow).delta =
      Option.map
        (fun v =>
          (⟨7, 3, 100, some 0, some 20, some 21, some 18, some 59, some 41⟩ :
            IdealRow).lapTime - v)
        (⟨7, 3, 100, some 0, some 20, some 21, some 18, some 59, some 41⟩ :
          IdealRow).ideal :=
  claim_C2 [⟨7, 3, 100⟩]
    [⟨7, 3, .S1a, 20⟩, ⟨7, 3, .S2a, 21⟩, ⟨7, 3, .S3a, 18⟩] [⟨7, 0⟩]
    ⟨7, 3, 100, some 0, some 20, some 21, some 18, some 59, some 41⟩
    (by
      have hv : isValidLap 100 = true := by decide
      have h1 : (1 : ℚ) < 20 := by norm_num
      have h2 : (1 : ℚ) < 21 := by norm_num
      have h3 : (1 : ℚ) < 18 := by norm_num
      simp [idealLap, idealLapDriver, lapSectorSums, groupBy, gkeys, grows,
        caseMain, listMin, optAdd3, mainOf, hv, h1, h2, h3]
      norm_num)

theorem optAdd3_of_case_none (m : MainSector) (b1 b2 b3 : Option ℚ)
    (h : (match m with | .S1 => b1 | .S2 => b2 | .S3 => b3) = none) :
    optAdd3 b1 b2 b3 = none := by
  cases m <;> cases b1 <;> cases b2 <;> cases b3 <;> simp_all [optAdd3]

/-- A driver with no qualifying record of main sector `m` has no candidate
lap for it, so the spec-side best is `NULL`. -/
theorem bestMainSpec_none (sectors : List SectorRow) (d : ℕ) (m : MainSector)
    (hmiss : ∀ s ∈ sectors, s.driver = d → mainOf s.sector = m →
      ¬ (1 < s.time)) :
    bestMainSpec sectors d m = none := by
  have hnil : sectors.filter (fun s =>
      decide (s.driver = d ∧ mainOf s.sector = m ∧ 1 < s.time)) = [] := by
    rw [List.filter_eq_nil_iff]
    intro s hs
    simp only [decide_eq_true_eq]
    rintro ⟨h1, h2, h3⟩
    exact hmiss s hs h1 h2 h3
  unfold bestMainSpec mainLaps
  rw [hnil]
  rfl

/-- C10: a driver (present in `drivers`) who has qualifying micro-sector
records (`sector_time_s > 1`) in some but not all main sectors gets `NULL`
for the missing `best_Sn`, and every valid lap of that driver still yields
an `ideal_lap` row — carrying `NULL` `ideal_lap_time_s` and
`delta_to_ideal_s` rather than being dropped. -/
theorem claim_C10 (laps : List LapRow) (sectors : List SectorRow)
    (drivers : List DriverRow) (d : ℕ) (dr : DriverRow) (m : MainSector)
    (hdr : drivers.find? (fun x => decide (x.driver = d)) = some dr)
    (hex : ∃ s ∈ sectors, s.driver = d ∧ 1 < s.time)
    (hmiss : ∀ s ∈ sectors, s.driver = d → mainOf s.sector = m →
      ¬ (1 < s.time)) :
    (∀ i ∈ idealLapDriver sectors drivers, i.driver = d →
      caseBest m i = none) ∧
    (∀ l ∈ laps, l.driver = d → isValidLap l.time = true →
      ∃ row ∈ idealLap laps sectors drivers,
        row.driver = d ∧ row.lap = l.lap ∧ row.lapTime = l.time ∧
        row.ideal = none ∧ row.delta = none) := by
  have hnone := bestMainSpec_none sectors d m hmiss
  constructor
  · intro i hi hid
    obtain ⟨h1, h2, h3⟩ := ild_row_fields sectors drivers i hi
    rw [hid] at h1 h2 h3
    cases m <;> simp only [caseBest] <;> rw [← hnone] at * <;>
      first
        | exact h1.trans (by rw [hnone])
        | exact h2.trans (by rw [hnone])
        | exact h3.trans (by rw [hnone])
  · intro l hl hld hvalid
    have hfind := ild_find? sectors drivers d dr hdr hex
    have hideal : optAdd3 (bestMainSpec sectors d .S1)
        (bestMainSpec sectors d .S2) (bestMainSpec sectors d .S3) = none := by
      apply optAdd3_of_case_none m
      cases m <;> simpa using hnone
    refine ⟨⟨l.driver, l.lap, l.time, some dr.klass,
        bestMainSpec sectors d .S1, bestMainSpec sectors d .S2,
        bestMainSpec sectors d .S3,
        optAdd3 (bestMainSpec sectors d .S1) (bestMainSpec sectors d .S2)
          (bestMainSpec sectors d .S3),
        (optAdd3 (bestMainSpec sectors d .S1) (bestMainSpec sectors d .S2)
          (bestMainSpec sectors d .S3)).map (fun v => l.time - v)⟩,
      ?_, hld, rfl, rfl, by rw [hideal], by rw [hideal]; rfl⟩
    unfold idealLap
    rw [List.mem_filterMap]
    refine ⟨l, List.mem_filter.mpr ⟨hl, hvalid⟩, ?_⟩
    have : (fun i : ILDRow => decide (i.driver = l.driver)) =
        (fun i : ILDRow => decide (i.driver = d)) := by
      funext i
      rw [hld]
    rw [this, hfind]
    rfl

/-- C10 witness: driver 7 has one qualifying S1 record and none in S2; the
claim instantiated at the concrete `ideal_lap_driver` row (whose `best_S2`
is `NULL`) and at the valid lap 3, which still yields an `ideal_lap` row
with `NULL` ideal and delta. -/
theorem claim_C10_witness :
    caseBest .S2 (⟨7, some 0, some 20, none, none⟩ : ILDRow) = none ∧
    ∃ row ∈ idealLap [⟨7, 3, 100⟩] [⟨7, 3, .S1a, 20⟩] [⟨7, 0⟩],
      row.driver = 7 ∧ row.lap = 3 ∧ row.lapTime = 100 ∧
      row.ideal = none ∧ row.delta = none := by
  have happ := claim_C10 [⟨7, 3, 100⟩] [⟨7, 3, .S1a, 20⟩] [⟨7, 0⟩] 7 ⟨7, 0⟩ .S2
    (by decide) ⟨⟨7, 3, .S1a, 20⟩, by decide, by decide⟩ (by decide)
  constructor
  · refine happ.1 ⟨7, some 0, some 20, none, none⟩ ?_ rfl
    have h1 : (1 : ℚ) < 20 := by norm_num
    simp [idealLapDriver, lapSectorSums, groupBy, gkeys, grows, caseMain,
      listMin, mainOf, h1]
  · exact happ.2 ⟨7, 3, 100⟩ (List.mem_cons_self _ _) rfl (by decide)

/-- C1 counterexample: the only lap record of driver 7 is lap 3 with
`lap_time_s = 300`, outside the plausible window, so `is_valid = false` —
yet `sector_deltas`, `main_sector_deltas` and `driver_opportunities` all
contain rows for (driver 7, lap 3): those queries filter only on
`sector_time_s > 1` and never consult `laps.is_valid`, contradicting the
claim that no row of any delta table references an invalid lap. -/
theorem claim_C1_counterexample :
    (∃ r ∈ sectorDeltas [⟨7, 3, .S1a, 20⟩] [⟨7, 0⟩],
      r.driver = 7 ∧ r.lap = 3) ∧
    (∃ r ∈ mainSectorDeltas (sectorDeltas [⟨7, 3, .S1a, 20⟩] [⟨7, 0⟩]),
      r.driver = 7 ∧ r.lap = 3) ∧
    (∃ o ∈ driverOpportunities
        (mainSectorDeltas (sectorDeltas [⟨7, 3, .S1a, 20⟩] [⟨7, 0⟩])),
      o.driver = 7) ∧
    (∀ l ∈ ([⟨7, 3, 300⟩] : List LapRow), l.driver = 7 → l.lap = 3 →
      isValidLap l.time = false) := by
  have h1 : (1 : ℚ) < 20 := by norm_num
  have h0 : (0 : ℚ) < 20 := by norm_num
  have hsd : sectorDeltas [⟨7, 3, .S1a, 20⟩] [⟨7, 0⟩] =
      [⟨7, 3, .S1a, .S1, 20, 20, 0, some 20, some 0, some 20, none, none, 0⟩] := by
    simp [sectorDeltas, sdBuild, idealLapSegmentsClass, idealLapDriver,
      lapSectorSums, groupBy, gkeys, grows, caseMain, caseBest, listMin,
      mainOf, h1]
  have hmsd : mainSectorDeltas (sectorDeltas [⟨7, 3, .S1a, 20⟩] [⟨7, 0⟩]) =
      [⟨7, 3, .S1, 20, some 20, some 0⟩] := by
    rw [hsd]
    simp [mainSectorDeltas, groupBy, gkeys, grows, caseBestSD, listMin]
  refine ⟨?_, ?_, ?_, by decide⟩
  · rw [hsd]
    exact ⟨_, List.mem_cons_self _ _, rfl, rfl⟩
  · rw [hmsd]
    exact ⟨_, List.mem_cons_self _ _, rfl, rfl⟩
  · rw [hmsd]
    have hopp : driverOpportunities [⟨7, 3, .S1, 20, some 20, some 0⟩] =
        [⟨7, .S1, 0, none, 0⟩] := by
      simp [driverOpportunities, groupBy, gkeys, grows, deltaBelow20,
        listMin, h0]
      norm_num [listMean, varSamp]
    rw [hopp]
    exact ⟨_, List.mem_cons_self _ _, rfl⟩

/-- C1 amended: the validity filter holds for `lap_deltas` and `ideal_lap`:
each of their rows stems from a lap record with `is_valid = true`.
`sector_deltas`, `main_sector_deltas` and `driver_opportunities` filter
only on `sector_time_s > 1` and do not consult lap validity (see the
counterexample). -/
theorem claim_C1_amended (laps : List LapRow) (sectors : List SectorRow)
    (drivers : List DriverRow) :
    (∀ row ∈ lapDeltas laps sectors drivers, ∃ l ∈ laps,
      l.driver = row.driver ∧ l.lap = row.lap ∧ l.time = row.lapTime ∧
      isValidLap l.time = true) ∧
    (∀ row ∈ idealLap laps sectors drivers, ∃ l ∈ laps,
      l.driver = row.driver ∧ l.lap = row.lap ∧ l.time = row.lapTime ∧
      isValidLap l.time = true) := by
  constructor
  · intro row hrow
    unfold lapDeltas at hrow
    rw [List.mem_filterMap] at hrow
    obtain ⟨l, hl, hmap⟩ := hrow
    rw [List.mem_filter] at hl
    rw [Option.map_eq_some'] at hmap
    obtain ⟨i, _, hbuild⟩ := hmap
    exact ⟨l, hl.1, by rw [← hbuild]; exact ⟨rfl, rfl, rfl, hl.2⟩⟩
  · intro row hrow
    unfold idealLap at hrow
    rw [List.mem_filterMap] at hrow
    obtain ⟨l, hl, hmap⟩ := hrow
    rw [List.mem_filter] at hl
    rw [Option.map_eq_some'] at hmap
    obtain ⟨i, _, hbuild⟩ := hmap
    exact ⟨l, hl.1, by rw [← hbuild]; exact ⟨rfl, rfl, rfl, hl.2⟩⟩

/-- C1 witness: the amended claim applied to a dataset with one valid lap
and to its concrete `ideal_lap` row, which traces back to that lap. -/
theorem claim_C1_witness :
    ∃ l ∈ ([⟨7, 3, 100⟩] : List LapRow),
      l.driver =
        (⟨7, 3, 100, some 0, some 20, none, none, none, none⟩ :
          IdealRow).driver ∧
      l.lap =
        (⟨7, 3, 100, some 0, some 20, none, none, none, none⟩ :
          IdealRow).lap ∧
      l.time =
        (⟨7, 3, 100, some 0, some 20, none, none, none, none⟩ :
          IdealRow).lapTime ∧
      isValidLap l.time = true :=
  (claim_C1_amended [⟨7, 3, 100⟩] [⟨7, 3, .S1a, 20⟩] [⟨7, 0⟩]).2
    ⟨7, 3, 100, some 0, some 20, none, none, none, none⟩
    (by
      have hv : isValidLap 100 = true := by decide
      have h1 : (1 : ℚ) < 20 := by norm_num
      simp [idealLap, idealLapDriver, lapSectorSums, groupBy, gkeys, grows,
        caseMain, listMin, optAdd3, mainOf, hv, h1])

/-- Every `lap_deltas` row's delta column is its lap time minus its ideal
column (`NULL`-propagating). -/
theorem lapDeltas_delta (laps : List LapRow) (sectors : List SectorRow)
    (drivers : List DriverRow) (r : LDRow)
    (hr : r ∈ lapDeltas laps sectors drivers) :
    r.delta = r.ideal.map (fun v => r.lapTime - v) := by
  unfold lapDeltas at hr
  rw [List.mem_filterMap] at hr
  obtain ⟨l, _, hmap⟩ := hr
  rw [Option.map_eq_some'] at hmap
  obtain ⟨i, _, hbuild⟩ := hmap
  rw [← hbuild]

/-- C8: when a driver has `lap_deltas` rows and their `ideal_lap_time_s` is
the constant `c` (which C2 guarantees for the pipeline), the insights
document's `total_time_opportunity_s` equals the driver's minimum valid
lap time minus `c`; and the document's `opportunities` list holds at most
three entries, sorted by descending `avg_loss_s`. -/
theorem claim_C8 (laps : List LapRow) (sectors : List SectorRow)
    (drivers : List DriverRow) (ops : List OppRow) (d : ℕ) (c : ℚ)
    (hne : ∃ r ∈ lapDeltas laps sectors drivers, r.driver = d)
    (hconst : ∀ r ∈ lapDeltas laps sectors drivers, r.driver = d →
      r.ideal = some c) :
    totalTimeOpportunity (lapDeltas laps sectors drivers) d =
      (listMin (((lapDeltas laps sectors drivers).filter
        (fun r => decide (r.driver = d))).map (fun r => r.lapTime))).map
          (fun bl => bl - c) ∧
    (topOpportunities ops d).length ≤ 3 ∧
    List.Pairwise (fun a b : OppRow => b.avgLoss ≤ a.avgLoss)
      (topOpportunities ops d) := by
  refine ⟨?_, ?_, ?_⟩
  · obtain ⟨r₀, hr₀, hd₀⟩ := hne
    have hmem : d ∈ gkeys (fun r : LDRow => r.driver)
        (lapDeltas laps sectors drivers) :=
      (mem_gkeys _ _ _).mpr ⟨r₀, hr₀, hd₀⟩
    unfold totalTimeOpportunity driverSummary
    rw [find?_groupBy (fun r : LDRow => r.driver)
      (fun d rows =>
        (⟨d, listMin (rows.map (fun r => r.lapTime)),
          listMin (rows.filterMap (fun r => r.ideal)),
          listMin (rows.filterMap (fun r => r.delta))⟩ : SummaryRow))
      (lapDeltas laps sectors drivers) (fun r => r.driver)
      (fun _ _ => rfl) d hmem]
    rw [Option.some_bind]
    have hgf : grows (fun r : LDRow => r.driver)
        (lapDeltas laps sectors drivers) d =
        (lapDeltas laps sectors drivers).filter
          (fun r => decide (r.driver = d)) := rfl
    have hfm : (grows (fun r : LDRow => r.driver)
        (lapDeltas laps sectors drivers) d).filterMap (fun r => r.delta) =
        (((lapDeltas laps sectors drivers).filter
          (fun r => decide (r.driver = d))).map (fun r => r.lapTime)).map
            (fun x => x - c) := by
      rw [List.map_map, hgf]
      apply filterMap_eq_map_of
      intro r hr
      rw [List.mem_filter] at hr
      have hd : r.driver = d := by simpa using hr.2
      have := lapDeltas_delta laps sectors drivers r hr.1
      rw [this, hconst r hr.1 hd]
      rfl
    rw [hfm, listMin_map_sub]
  · exact le_trans (List.length_take_le 3 _) (le_refl 3)
  · have hsorted := @List.sorted_mergeSort OppRow
      (fun a b : OppRow => decide (b.avgLoss ≤ a.avgLoss))
      (fun a b c hab hbc => by
        simp only [decide_eq_true_eq] at *
        exact le_trans hbc hab)
      (fun a b => by
        simp only [Bool.or_eq_true, decide_eq_true_eq]
        exact le_total b.avgLoss a.avgLoss)
      (ops.filter (fun r => decide (r.driver = d)))
    have htake := List.Pairwise.sublist
      (List.take_sublist 3 _) hsorted
    exact htake.imp (fun h => of_decide_eq_true h)

/-- C8 witness: one valid lap (100 s) against a composite ideal of 59 s and
a single opportunity row. -/
theorem claim_C8_witness :
    totalTimeOpportunity
        (lapDeltas [⟨7, 3, 100⟩]
          [⟨7, 3, .S1a, 20⟩, ⟨7, 3, .S2a, 21⟩, ⟨7, 3, .S3a, 18⟩] [⟨7, 0⟩]) 7 =
      (listMin (((lapDeltas [⟨7, 3, 100⟩]
          [⟨7, 3, .S1a, 20⟩, ⟨7, 3, .S2a, 21⟩, ⟨7, 3, .S3a, 18⟩]
          [⟨7, 0⟩]).filter (fun r => decide (r.driver = 7))).map
            (fun r => r.lapTime))).map (fun bl => bl - 59) ∧
    (topOpportunities [⟨7, .S1, 5, none, 1⟩] 7).length ≤ 3 ∧
    List.Pairwise (fun a b : OppRow => b.avgLoss ≤ a.avgLoss)
      (topOpportunities [⟨7, .S1, 5, none, 1⟩] 7) := by
  have hld : lapDeltas [⟨7, 3, 100⟩]
      [⟨7, 3, .S1a, 20⟩, ⟨7, 3, .S2a, 21⟩, ⟨7, 3, .S3a, 18⟩] [⟨7, 0⟩] =
      [⟨7, 3, 100, some 59, some 41, some 0⟩] := by
    have hv : isValidLap 100 = true := by decide
    have h1 : (1 : ℚ) < 20 := by norm_num
    have h2 : (1 : ℚ) < 21 := by norm_num
    have h3 : (1 : ℚ) < 18 := by norm_num
    simp [lapDeltas, idealLap, idealLapDriver, lapSectorSums, groupBy,
      gkeys, grows, caseMain, listMin, optAdd3, mainOf, hv, h1, h2, h3]
    norm_num
  exact claim_C8 [⟨7, 3, 100⟩]
    [⟨7, 3, .S1a, 20⟩, ⟨7, 3, .S2a, 21⟩, ⟨7, 3, .S3a, 18⟩] [⟨7, 0⟩]
    [⟨7, .S1, 5, none, 1⟩] 7 59
    (by
      rw [hld]
      exact ⟨_, List.mem_cons_self _ _, rfl⟩)
    (by
      rw [hld]
      intro r hr _
      rw [List.mem_singleton] at hr
      rw [hr])

/-- Every row of a `(d, L, m)` group of `sector_deltas` originates from a
qualifying micro-sector record of driver `d`, lap `L`, main sector `m`,
and the driver is found in `drivers`. -/
theorem sd_group_src (sectors : List SectorRow) (drivers : List DriverRow)
    (d L : ℕ) (m : MainSector) (r : SDRow)
    (hr : r ∈ grows (fun r : SDRow => (r.driver, r.lap, r.main))
      (sectorDeltas sectors drivers) (d, L, m)) :
    ∃ s ∈ sectors, 1 < s.time ∧ s.driver = d ∧ s.lap = L ∧
      mainOf s.sector = m ∧
      (drivers.find? (fun x => decide (x.driver = d))).isSome := by
  rw [mem_grows] at hr
  obtain ⟨hmem, hkey⟩ := hr
  unfold sectorDeltas at hmem
  rw [List.mem_filterMap] at hmem
  obtain ⟨s, hsf, hbuild⟩ := hmem
  rw [List.mem_filter] at hsf
  obtain ⟨dbr, cb, bb, hdr, _, _, hrow⟩ :=
    sdBuild_fields sectors drivers s r hbuild
  have hsd : s.driver = d := by
    rw [hrow] at hkey
    exact congrArg Prod.fst hkey
  have hsl : s.lap = L := by
    rw [hrow] at hkey
    exact congrArg (fun p : ℕ × ℕ × MainSector => p.2.1) hkey
  have hsm : mainOf s.sector = m := by
    rw [hrow] at hkey
    exact congrArg (fun p : ℕ × ℕ × MainSector => p.2.2) hkey
  refine ⟨s, hsf.1, by simpa using hsf.2, hsd, hsl, hsm, ?_⟩
  rw [show (fun x : DriverRow => decide (x.driver = d)) =
      (fun x : DriverRow => decide (x.driver = s.driver)) from by
    funext x
    rw [hsd]]
  rw [hdr]
  rfl

/-- C9: every `main_sector_deltas` row has `delta_main_s ≥ 0` — the lap's
main-sector sum is bounded below by the driver's best, which is the
minimum of exactly those sums — and consequently `avg_loss_s` and
`best_gain_s` of every `driver_opportunities` row are nonnegative.  The
`Nodup` hypothesis is the key-uniqueness of the `drivers` table under
which the embedded lookup join coincides with the SQL join. -/
theorem claim_C9 (sectors : List SectorRow) (drivers : List DriverRow)
    (_hnd : (drivers.map (fun x => x.driver)).Nodup) :
    (∀ row ∈ mainSectorDeltas (sectorDeltas sectors drivers),
      ∀ x, row.delta = some x → 0 ≤ x) ∧
    (∀ opp ∈ driverOpportunities
        (mainSectorDeltas (sectorDeltas sectors drivers)),
      0 ≤ opp.avgLoss ∧ 0 ≤ opp.bestGain) := by
  have part1 : ∀ row ∈ mainSectorDeltas (sectorDeltas sectors drivers),
      ∀ x, row.delta = some x → 0 ≤ x := by
    intro row hrow x hx
    unfold mainSectorDeltas at hrow
    rw [mem_groupBy] at hrow
    obtain ⟨⟨d, L, m⟩, hk, rfl⟩ := hrow
    simp only [Option.map_eq_some'] at hx
    obtain ⟨v, hv, hxv⟩ := hx
    rw [← hxv]
    rw [sub_nonneg]
    have hvmem := listMin_mem _ _ hv
    rw [List.mem_filterMap] at hvmem
    obtain ⟨r₁, hr₁, hcase⟩ := hvmem
    obtain ⟨s₁, hs₁, ht₁, hd₁, hl₁, hm₁, hfound⟩ :=
      sd_group_src sectors drivers d L m r₁ hr₁
    have hbest : bestMainSpec sectors d m = some v := by
      obtain ⟨hb1, hb2, hb3⟩ := sd_group_bS sectors drivers d L m r₁ hr₁
      cases m
      · rw [← hb1]
        exact hcase
      · rw [← hb2]
        exact hcase
      · rw [← hb3]
        exact hcase
    have hLmem : lapMainSum sectors d L m ∈
        (mainLaps sectors d m).map (fun L' => lapMainSum sectors d L' m) := by
      rw [List.mem_map]
      refine ⟨L, ?_, rfl⟩
      unfold mainLaps
      rw [List.mem_dedup, List.mem_map]
      exact ⟨s₁, List.mem_filter.mpr ⟨hs₁, by
        simp only [decide_eq_true_eq]
        exact ⟨hd₁, hm₁, ht₁⟩⟩, hl₁⟩
    have hle : v ≤ lapMainSum sectors d L m :=
      listMin_le _ v hbest _ hLmem
    have hsum : ((grows (fun r : SDRow => (r.driver, r.lap, r.main))
        (sectorDeltas sectors drivers) (d, L, m)).map (fun r => r.time)).sum =
        lapMainSum sectors d L m := by
      rw [sd_group_times sectors drivers d L m hfound]
      rfl
    rw [hsum]
    exact hle
  refine ⟨part1, ?_⟩
  intro opp hopp
  unfold driverOpportunities at hopp
  rw [mem_groupBy] at hopp
  obtain ⟨⟨d, m⟩, hk, rfl⟩ := hopp
  have hds : ∀ y ∈ (grows (fun r : MSDRow => (r.driver, r.main))
      ((mainSectorDeltas (sectorDeltas sectors drivers)).filter deltaBelow20)
      (d, m)).filterMap (fun r => r.delta), 0 ≤ y := by
    intro y hy
    rw [List.mem_filterMap] at hy
    obtain ⟨r, hr, hdelta⟩ := hy
    rw [mem_grows] at hr
    rw [List.mem_filter] at hr
    exact part1 r hr.1.1 y hdelta
  refine ⟨listMean_nonneg _ hds, ?_⟩
  show (0 : ℚ) ≤ (listMin ((grows (fun r : MSDRow => (r.driver, r.main))
      ((mainSectorDeltas (sectorDeltas sectors drivers)).filter deltaBelow20)
      (d, m)).filterMap (fun r => r.delta))).getD 0
  cases hmin : listMin ((grows (fun r : MSDRow => (r.driver, r.main))
      ((mainSectorDeltas (sectorDeltas sectors drivers)).filter deltaBelow20)
      (d, m)).filterMap (fun r => r.delta)) with
  | none => exact le_refl 0
  | some v => simpa using hds v (listMin_mem _ _ hmin)

/-- C9 witness: the invariant applied to a one-record dataset, instantiated
at its concrete `main_sector_deltas` row (delta 0) and its concrete
`driver_opportunities` row. -/
theorem claim_C9_witness :
    (0 : ℚ) ≤ 0 ∧
    (0 ≤ (⟨7, .S1, 0, none, 0⟩ : OppRow).avgLoss ∧
      0 ≤ (⟨7, .S1, 0, none, 0⟩ : OppRow).bestGain) := by
  have h1 : (1 : ℚ) < 20 := by norm_num
  have h0 : (0 : ℚ) < 20 := by norm_num
  have hsd : sectorDeltas [⟨7, 3, .S1a, 20⟩] [⟨7, 0⟩] =
      [⟨7, 3, .S1a, .S1, 20, 20, 0, some 20, some 0, some 20, none, none, 0⟩] := by
    simp [sectorDeltas, sdBuild, idealLapSegmentsClass, idealLapDriver,
      lapSectorSums, groupBy, gkeys, grows, caseMain, caseBest, listMin,
      mainOf, h1]
  have hmsd : mainSectorDeltas (sectorDeltas [⟨7, 3, .S1a, 20⟩] [⟨7, 0⟩]) =
      [⟨7, 3, .S1, 20, some 20, some 0⟩] := by
    rw [hsd]
    simp [mainSectorDeltas, groupBy, gkeys, grows, caseBestSD, listMin]
  constructor
  · exact (claim_C9 [⟨7, 3, .S1a, 20⟩] [⟨7, 0⟩] (by decide)).1
      ⟨7, 3, .S1, 20, some 20, some 0⟩
      (by rw [hmsd]; exact List.mem_cons_self _ _) 0 rfl
  · refine (claim_C9 [⟨7, 3, .S1a, 20⟩] [⟨7, 0⟩] (by decide)).2
      ⟨7, .S1, 0, none, 0⟩ ?_
    rw [hmsd]
    have hopp : driverOpportunities [⟨7, 3, .S1, 20, some 20, some 0⟩] =
        [⟨7, .S1, 0, none, 0⟩] := by
      simp [driverOpportunities, groupBy, gkeys, grows, deltaBelow20,
        listMin, h0]
      norm_num [listMean, varSamp]
    rw [hopp]
    exact List.mem_cons_self _ _

end ApexCopilot
